import Mathlib

/-!
Verification of the password-manager vault engine (simp-lee/passwordmanager).

Shallow embedding conventions:
* Go byte slices and strings are `List Nat` with every element < 256
  (captured by `ValidBytes` where it matters).
* `errors.Wrap` preserves the wrapped base error (`errors.Is`), so errors are
  modelled by their base condition in the inductive type `Err`.
* Randomness (salts, nonces, id bytes) and clock reads are passed as explicit
  arguments.
* External library primitives (PBKDF2 from golang.org/x/crypto, AES-GCM from
  crypto/cipher, encoding/json) are not part of this repository; they are
  modelled from the spec as concrete executable functions that satisfy the
  interface contract the spec states for them (deterministic derivation,
  self-contained authenticated tokens, injective serialization).  Everything
  in internal/crypto, internal/storage and the GUI backend (App) is translated
  directly from the source.
-/

/-- Base error conditions of internal/errors plus the two external error
sources that reach callers through `errors.Wrap` chains (base64 corrupt-input
errors, json unmarshal errors, file-read errors). -/
inductive Err where
  | vaultLocked
  | vaultNotExists
  | vaultExists
  | invalidPassword
  | accountNotFound
  | dataCorrupted
  | directoryRequired
  | base64Decode
  | jsonUnmarshal
  | ioRead
deriving DecidableEq, Repr

/-- A list of `Nat` is a faithful image of a Go byte slice when every entry
fits in a byte. -/
def ValidBytes (l : List Nat) : Prop := ∀ x ∈ l, x < 256

instance (l : List Nat) : Decidable (ValidBytes l) := List.decidableBAll _ l

/-! ## base64 (encoding/base64 StdEncoding, as used by crypto.go)

`Encrypt` returns `base64.StdEncoding.EncodeToString(nonce ++ sealed)` and
`Decrypt` starts with `base64.StdEncoding.DecodeString`.  The encoding is
modelled byte-for-byte: 3 input bytes become 4 alphabet characters, the tail
is padded with `'='` (61); decoding requires a multiple-of-4 length, rejects
non-alphabet characters and misplaced padding, exactly like the strict
std-encoding decoder. -/

/-- Character (ASCII code) of a six-bit value in the standard base64 alphabet. -/
def b64Char (v : Nat) : Nat :=
  if v < 26 then v + 65
  else if v < 52 then v + 71
  else if v < 62 then v - 4
  else if v = 62 then 43 else 47

/-- Six-bit value of an alphabet character; `none` for characters outside the
standard alphabet (including the pad character 61). -/
def b64DecodeChar (c : Nat) : Option Nat :=
  if 65 ≤ c ∧ c ≤ 90 then some (c - 65)
  else if 97 ≤ c ∧ c ≤ 122 then some (c - 71)
  else if 48 ≤ c ∧ c ≤ 57 then some (c + 4)
  else if c = 43 then some 62
  else if c = 47 then some 63
  else none

theorem b64DecodeChar_b64Char : ∀ v < 64, b64DecodeChar (b64Char v) = some v := by decide

theorem b64Char_ne_pad : ∀ v < 64, b64Char v ≠ 61 := by decide

/-- Standard base64 encoding of a byte sequence, producing ASCII codes. -/
def b64Encode : List Nat → List Nat
  | a :: b :: c :: rest =>
    b64Char (a / 4) :: b64Char (a % 4 * 16 + b / 16) ::
      b64Char (b % 16 * 4 + c / 64) :: b64Char (c % 64) :: b64Encode rest
  | [a, b] => [b64Char (a / 4), b64Char (a % 4 * 16 + b / 16), b64Char (b % 16 * 4), 61]
  | [a] => [b64Char (a / 4), b64Char (a % 4 * 16), 61, 61]
  | [] => []

/-- Standard base64 decoding: length must be a multiple of four, padding only
in the last quad; trailing sextet bits are not checked (Go's non-strict
std decoder). -/
def b64Decode : List Nat → Option (List Nat)
  | [] => some []
  | c1 :: c2 :: c3 :: c4 :: rest =>
    match b64DecodeChar c1, b64DecodeChar c2 with
    | some v1, some v2 =>
      if c3 = 61 then
        if c4 = 61 ∧ rest = [] then some [v1 * 4 + v2 / 16] else none
      else
        match b64DecodeChar c3 with
        | some v3 =>
          if c4 = 61 then
            if rest = [] then some [v1 * 4 + v2 / 16, v2 % 16 * 16 + v3 / 4] else none
          else
            match b64DecodeChar c4 with
            | some v4 =>
              match b64Decode rest with
              | some bs => some ((v1 * 4 + v2 / 16) :: (v2 % 16 * 16 + v3 / 4) :: (v3 % 4 * 64 + v4) :: bs)
              | none => none
            | none => none
        | none => none
    | _, _ => none
  | _ => none

theorem b64Decode_b64Encode_one (a : Nat) (ha : a < 256) :
    b64Decode (b64Encode [a]) = some [a] := by
  have h1 : a / 4 < 64 := by omega
  have h2 : a % 4 * 16 < 64 := by omega
  simp only [b64Encode, b64Decode, b64DecodeChar_b64Char _ h1, b64DecodeChar_b64Char _ h2]
  norm_num
  omega

theorem b64Decode_b64Encode_two (a b : Nat) (ha : a < 256) (hb : b < 256) :
    b64Decode (b64Encode [a, b]) = some [a, b] := by
  have h1 : a / 4 < 64 := by omega
  have h2 : a % 4 * 16 + b / 16 < 64 := by omega
  have h3 : b % 16 * 4 < 64 := by omega
  simp only [b64Encode, b64Decode, b64DecodeChar_b64Char _ h1, b64DecodeChar_b64Char _ h2,
    b64DecodeChar_b64Char _ h3, b64Char_ne_pad _ h3, if_neg (b64Char_ne_pad _ h3)]
  norm_num
  constructor <;> omega

theorem b64Decode_b64Encode_quad (a b c : Nat) (rest : List Nat)
    (ha : a < 256) (hb : b < 256) (hc : c < 256) :
    b64Decode (b64Encode (a :: b :: c :: rest)) =
      (b64Decode (b64Encode rest)).map (fun bs => a :: b :: c :: bs) := by
  have h1 : a / 4 < 64 := by omega
  have h2 : a % 4 * 16 + b / 16 < 64 := by omega
  have h3 : b % 16 * 4 + c / 64 < 64 := by omega
  have h4 : c % 64 < 64 := by omega
  simp only [b64Encode, b64Decode, b64DecodeChar_b64Char _ h1, b64DecodeChar_b64Char _ h2,
    b64DecodeChar_b64Char _ h3, b64DecodeChar_b64Char _ h4,
    if_neg (b64Char_ne_pad _ h3), if_neg (b64Char_ne_pad _ h4)]
  have e1 : a / 4 * 4 + (a % 4 * 16 + b / 16) / 16 = a := by omega
  have e2 : (a % 4 * 16 + b / 16) % 16 * 16 + (b % 16 * 4 + c / 64) / 4 = b := by omega
  have e3 : (b % 16 * 4 + c / 64) % 4 * 64 + c % 64 = c := by omega
  rw [e1, e2, e3]
  cases b64Decode (b64Encode rest) <;> rfl

/-- base64 round-trip: decoding an encoded byte sequence restores it exactly. -/
theorem b64Decode_b64Encode (bs : List Nat) (h : ValidBytes bs) :
    b64Decode (b64Encode bs) = some bs := by
  have main : ∀ n bs, List.length bs ≤ n → ValidBytes bs → b64Decode (b64Encode bs) = some bs := by
    intro n
    induction n with
    | zero =>
      intro bs hlen _
      have : bs = [] := List.eq_nil_of_length_eq_zero (Nat.le_zero.mp hlen)
      subst this; rfl
    | succ n ih =>
      intro bs hlen hval
      match bs with
      | [] => rfl
      | [a] => exact b64Decode_b64Encode_one a (hval a (by simp))
      | [a, b] => exact b64Decode_b64Encode_two a b (hval a (by simp)) (hval b (by simp))
      | a :: b :: c :: rest =>
        have ha : a < 256 := hval a (by simp)
        have hb : b < 256 := hval b (by simp)
        have hc : c < 256 := hval c (by simp)
        have hrest : ValidBytes rest := fun x hx => hval x (by simp [hx])
        have hlen' : rest.length ≤ n := by
          simp only [List.length_cons] at hlen; omega
        rw [b64Decode_b64Encode_quad a b c rest ha hb hc, ih rest hlen' hrest]
        rfl
  exact main bs.length bs (Nat.le_refl _) h

/-- base64 encoding is injective on byte sequences. -/
theorem b64Encode_inj {bs₁ bs₂ : List Nat} (h₁ : ValidBytes bs₁) (h₂ : ValidBytes bs₂)
    (h : b64Encode bs₁ = b64Encode bs₂) : bs₁ = bs₂ := by
  have := b64Decode_b64Encode bs₁ h₁
  rw [h, b64Decode_b64Encode bs₂ h₂] at this
  exact (Option.some.injEq _ _ ▸ this).symm

/-! ## Key derivation (internal/crypto, constants and PBKDF2 calls)

`GenerateKey` and `HashPassword` in crypto.go are the *same* PBKDF2-SHA256
invocation (100000 iterations, 32-byte output).  PBKDF2 itself lives in
golang.org/x/crypto, outside this repository. -/

/-- Cryptographic constants of crypto.go. -/
def KeyLength : Nat := 32

/-- PBKDF2 salt length (bytes), crypto.go. -/
def SaltLength : Nat := 16

/-- SHA-256 hash length, storage.go `hashLength`. -/
def hashLength : Nat := 32

/-- AES-GCM standard nonce size, `aesgcm.NonceSize()`. -/
def nonceSize : Nat := 12

/-- Modelled from the spec: PBKDF2-SHA256 key derivation (golang.org/x/crypto
is external to the repository).  Per spec section 4.1 it is a deterministic
function of password and salt with fixed 32-byte output whose value changes
with overwhelming probability when either input changes; theorems that need
two derivations to differ take that inequality as an explicit hypothesis,
discharged by computation in the witnesses. -/
def pbkdf2Key (password salt : List Nat) : List Nat :=
  (List.range 32).map fun i =>
    (password.foldl (fun a b => a * 131 + b + 1) 7 +
      salt.foldl (fun a b => a * 137 + b + 1) 11 +
      (i + 1) * (password.length + 2 * salt.length + 3)) % 256

/-- crypto.GenerateKey: derives the encryption key from master password and salt. -/
def GenerateKey (masterPassword salt : List Nat) : List Nat := pbkdf2Key masterPassword salt

/-- crypto.HashPassword: the verification hash; the same PBKDF2 call as
`GenerateKey`. -/
def HashPassword (password salt : List Nat) : List Nat := pbkdf2Key password salt

theorem pbkdf2Key_length (password salt : List Nat) : (pbkdf2Key password salt).length = 32 := by
  simp [pbkdf2Key]

theorem pbkdf2Key_valid (password salt : List Nat) : ValidBytes (pbkdf2Key password salt) := by
  intro x hx
  simp only [pbkdf2Key, List.mem_map] at hx
  obtain ⟨i, _, rfl⟩ := hx
  exact Nat.mod_lt _ (by norm_num)

theorem HashPassword_length (password salt : List Nat) :
    (HashPassword password salt).length = 32 := pbkdf2Key_length password salt

theorem GenerateKey_length (masterPassword salt : List Nat) :
    (GenerateKey masterPassword salt).length = 32 := pbkdf2Key_length masterPassword salt

theorem GenerateKey_valid (masterPassword salt : List Nat) :
    ValidBytes (GenerateKey masterPassword salt) := pbkdf2Key_valid masterPassword salt


/-! ## Authenticated cipher core (crypto/cipher AES-GCM, external)

Modelled from the spec: the Go standard library's AES-GCM (`aesgcm.Seal` /
`aesgcm.Open`) is external to the repository.  Spec section 4.2 specifies it
as an ideal authenticated cipher: the sealed token is self-contained
(ciphertext plus integrity tag), decodable only with the same key and nonce,
and any tampering is detected.  The model keeps GCM's structure — the
ciphertext body is the plaintext XOR-masked with a key/nonce keystream,
followed by an authentication tag over key, nonce and body — and makes the
ideal-functionality guarantee literal by letting the tag determine key, nonce
and body exactly (real GCM offers the same guarantee computationally; the tag
here is not a fixed 16 bytes). -/

/-- Keystream for the CTR-style mask (concrete stand-in for AES-CTR). -/
def keystream (key nonce : List Nat) (len : Nat) : List Nat :=
  (List.range len).map fun i =>
    (key.foldl (fun a b => a * 131 + b + 1) 3 +
      nonce.foldl (fun a b => a * 139 + b + 1) 5 + i * 7 + 1) % 256

/-- XOR-mask a buffer with the keystream; involutive. -/
def gcmMask (key nonce buf : List Nat) : List Nat :=
  List.zipWith Nat.xor buf (keystream key nonce buf.length)

/-- Authentication tag over key, nonce and ciphertext body (ideal MAC:
it binds all three exactly). -/
def gcmTag (key nonce body : List Nat) : List Nat :=
  [key.length % 256] ++ key ++ [nonce.length % 256] ++ nonce ++ body

/-- Seal: masked plaintext followed by the authentication tag
(model of `aesgcm.Seal(nil, nonce, plaintext, nil)`). -/
def gcmSeal (key nonce plaintext : List Nat) : List Nat :=
  gcmMask key nonce plaintext ++ gcmTag key nonce (gcmMask key nonce plaintext)

/-- Open: recover the body from the token shape, recompute the tag, release
the unmasked plaintext only on an exact match
(model of `aesgcm.Open(nil, nonce, ct, nil)`). -/
def gcmOpen (key nonce ct : List Nat) : Option (List Nat) :=
  if ct.length < 2 + key.length + nonce.length then none
  else if (ct.length - (2 + key.length + nonce.length)) % 2 ≠ 0 then none
  else if ct = ct.take ((ct.length - (2 + key.length + nonce.length)) / 2) ++
      gcmTag key nonce (ct.take ((ct.length - (2 + key.length + nonce.length)) / 2)) then
    some (gcmMask key nonce (ct.take ((ct.length - (2 + key.length + nonce.length)) / 2)))
  else none

theorem keystream_length (key nonce : List Nat) (len : Nat) :
    (keystream key nonce len).length = len := by simp [keystream]

theorem gcmMask_length (key nonce buf : List Nat) :
    (gcmMask key nonce buf).length = buf.length := by
  simp [gcmMask, keystream_length]

theorem zipWith_xor_cancel :
    ∀ (l ks : List Nat), ks.length = l.length →
      List.zipWith Nat.xor (List.zipWith Nat.xor l ks) ks = l := by
  intro l
  induction l with
  | nil => intro ks _; simp
  | cons a l ih =>
    intro ks hlen
    cases ks with
    | nil => simp at hlen
    | cons k ks =>
      simp only [List.zipWith_cons_cons, List.cons.injEq]
      refine ⟨Nat.xor_cancel_right k a, ih ks (by simpa using hlen)⟩

theorem gcmMask_gcmMask (key nonce buf : List Nat) :
    gcmMask key nonce (gcmMask key nonce buf) = buf := by
  unfold gcmMask
  have hl : (List.zipWith Nat.xor buf (keystream key nonce buf.length)).length = buf.length := by
    rw [List.length_zipWith, keystream_length, Nat.min_self]
  rw [hl]
  exact zipWith_xor_cancel buf _ (keystream_length key nonce buf.length)

theorem gcmTag_length (key nonce body : List Nat) :
    (gcmTag key nonce body).length = 2 + key.length + nonce.length + body.length := by
  simp [gcmTag]; omega

theorem gcmSeal_length (key nonce plaintext : List Nat) :
    (gcmSeal key nonce plaintext).length =
      2 * plaintext.length + 2 + key.length + nonce.length := by
  simp [gcmSeal, gcmTag_length, gcmMask_length]; omega

theorem gcmSeal_take (key nonce plaintext : List Nat) :
    (gcmSeal key nonce plaintext).take
        (((gcmSeal key nonce plaintext).length - (2 + key.length + nonce.length)) / 2) =
      gcmMask key nonce plaintext := by
  rw [gcmSeal_length]
  have h : (2 * plaintext.length + 2 + key.length + nonce.length -
      (2 + key.length + nonce.length)) / 2 = plaintext.length := by omega
  rw [h]
  exact List.take_left' (gcmMask_length key nonce plaintext)

/-- Round trip of the cipher core. -/
theorem gcmOpen_gcmSeal (key nonce plaintext : List Nat) :
    gcmOpen key nonce (gcmSeal key nonce plaintext) = some plaintext := by
  unfold gcmOpen
  rw [if_neg (by rw [gcmSeal_length]; omega),
    if_neg (by rw [gcmSeal_length]; simp; omega),
    if_pos (by rw [gcmSeal_take]; rfl),
    gcmSeal_take, gcmMask_gcmMask]

/-- The tag determines key, nonce and body exactly (given matching lengths). -/
theorem gcmTag_inj {key key' nonce nonce' c c' : List Nat}
    (hk : key.length = key'.length) (hn : nonce.length = nonce'.length)
    (h : gcmTag key nonce c = gcmTag key' nonce' c') :
    key = key' ∧ nonce = nonce' ∧ c = c' := by
  unfold gcmTag at h
  obtain ⟨h2, hc⟩ := List.append_inj h (by simp [hk, hn])
  obtain ⟨h4, hnonce⟩ := List.append_inj h2 (by simp [hk])
  obtain ⟨h6, -⟩ := List.append_inj' h4 (by simp)
  obtain ⟨-, hkey⟩ := List.append_inj h6 (by simp)
  exact ⟨hkey, hnonce, hc⟩

/-- Opening a sealed token under a different key or nonce of the same length
fails. -/
theorem gcmOpen_wrong {key key' nonce nonce' pt : List Nat}
    (hk : key.length = key'.length) (hn : nonce.length = nonce'.length)
    (hne : key ≠ key' ∨ nonce ≠ nonce') :
    gcmOpen key' nonce' (gcmSeal key nonce pt) = none := by
  have htake : (gcmSeal key nonce pt).take
      (((gcmSeal key nonce pt).length - (2 + key'.length + nonce'.length)) / 2) =
      gcmMask key nonce pt := by
    rw [gcmSeal_length]
    have h : (2 * pt.length + 2 + key.length + nonce.length -
        (2 + key'.length + nonce'.length)) / 2 = pt.length := by omega
    rw [h]
    exact List.take_left' (gcmMask_length key nonce pt)
  unfold gcmOpen
  rw [if_neg (by rw [gcmSeal_length]; omega),
    if_neg (by rw [gcmSeal_length]; simp; omega),
    if_neg]
  rw [htake]
  intro heq
  have hdef : gcmSeal key nonce pt =
      gcmMask key nonce pt ++ gcmTag key nonce (gcmMask key nonce pt) := rfl
  have hcancel : gcmTag key nonce (gcmMask key nonce pt) =
      gcmTag key' nonce' (gcmMask key nonce pt) :=
    List.append_cancel_left (hdef.symm.trans heq)
  obtain ⟨h1, h2, -⟩ := gcmTag_inj hk hn hcancel
  rcases hne with hne | hne
  · exact hne h1
  · exact hne h2

/-- Altering any single byte of a sealed token makes opening fail. -/
theorem gcmOpen_set {key nonce pt : List Nat} (i b : Nat)
    (hi : i < (gcmSeal key nonce pt).length)
    (hb : b ≠ (gcmSeal key nonce pt)[i]) :
    gcmOpen key nonce ((gcmSeal key nonce pt).set i b) = none := by
  have hMlen := gcmMask_length key nonce pt
  have hslen := gcmSeal_length key nonce pt
  have hq : (((gcmSeal key nonce pt).set i b).length - (2 + key.length + nonce.length)) / 2 =
      pt.length := by
    rw [List.length_set, hslen]; omega
  have htakeM : (gcmSeal key nonce pt).take pt.length = gcmMask key nonce pt :=
    List.take_left' hMlen
  unfold gcmOpen
  rw [if_neg (by rw [List.length_set, hslen]; omega),
    if_neg (by rw [List.length_set, hslen]; simp; omega),
    if_neg]
  rw [hq]
  by_cases hcl : i < pt.length
  · -- alteration inside the ciphertext body: the copy of the body bound by
    -- the tag no longer matches
    rw [List.set_take, htakeM]
    intro heq
    have hdrop := congrArg (List.drop (pt.length + 2 + key.length + nonce.length)) heq
    have hregroup : gcmSeal key nonce pt =
        (gcmMask key nonce pt ++ [key.length % 256] ++ key ++ [nonce.length % 256] ++ nonce) ++
          gcmMask key nonce pt := by
      simp [gcmSeal, gcmTag, List.append_assoc]
    have hpre : (gcmMask key nonce pt ++ [key.length % 256] ++ key ++ [nonce.length % 256] ++
        nonce).length = pt.length + 2 + key.length + nonce.length := by
      simp [List.length_append, hMlen]; omega
    have hpre' : ((gcmMask key nonce pt).set i b ++ [key.length % 256] ++ key ++
        [nonce.length % 256] ++ nonce).length = pt.length + 2 + key.length + nonce.length := by
      simp [List.length_append, List.length_set, hMlen]; omega
    rw [List.drop_set, if_pos (by omega)] at hdrop
    rw [hregroup] at hdrop
    rw [List.drop_left' hpre] at hdrop
    have hregroup' : (gcmMask key nonce pt).set i b ++
        gcmTag key nonce ((gcmMask key nonce pt).set i b) =
        ((gcmMask key nonce pt).set i b ++ [key.length % 256] ++ key ++ [nonce.length % 256] ++
          nonce) ++ (gcmMask key nonce pt).set i b := by
      simp [gcmTag, List.append_assoc]
    rw [hregroup', List.drop_left' hpre'] at hdrop
    have hib : i < (gcmMask key nonce pt).length := by rw [hMlen]; exact hcl
    have hval := congrArg (fun l => l[i]?) hdrop
    simp only [List.getElem?_set_self hib, List.getElem?_eq_getElem hib] at hval
    have hct : (gcmSeal key nonce pt)[i] = (gcmMask key nonce pt)[i] :=
      List.getElem_append_left hib
    rw [hct] at hb
    exact hb (Option.some.inj hval).symm
  · -- alteration inside the tag region: the token no longer matches the
    -- recomputed tag for its (unchanged) body
    have hset : (gcmMask key nonce pt).set i b = gcmMask key nonce pt :=
      List.set_eq_of_length_le (by rw [hMlen]; omega)
    rw [List.set_take, htakeM, hset]
    intro heq
    have hdef : gcmSeal key nonce pt =
        gcmMask key nonce pt ++ gcmTag key nonce (gcmMask key nonce pt) := rfl
    have hec : (gcmSeal key nonce pt).set i b = gcmSeal key nonce pt := heq.trans hdef.symm
    have hval := congrArg (fun l => l[i]?) hec
    simp only [List.getElem?_set_self hi, List.getElem?_eq_getElem hi] at hval
    exact hb (Option.some.inj hval)

theorem ValidBytes.append {l₁ l₂ : List Nat} (h₁ : ValidBytes l₁) (h₂ : ValidBytes l₂) :
    ValidBytes (l₁ ++ l₂) := by
  intro x hx
  rcases List.mem_append.mp hx with hx | hx
  · exact h₁ x hx
  · exact h₂ x hx

theorem ValidBytes.cons {a : Nat} {l : List Nat} (ha : a < 256) (h : ValidBytes l) :
    ValidBytes (a :: l) := by
  intro x hx
  rcases List.mem_cons.mp hx with rfl | hx
  · exact ha
  · exact h x hx

theorem keystream_valid (key nonce : List Nat) (len : Nat) :
    ValidBytes (keystream key nonce len) := by
  intro x hx
  simp only [keystream, List.mem_map] at hx
  obtain ⟨i, -, rfl⟩ := hx
  exact Nat.mod_lt _ (by norm_num)

theorem zipWith_xor_valid : ∀ (l ks : List Nat), ValidBytes l → ValidBytes ks →
    ValidBytes (List.zipWith Nat.xor l ks) := by
  intro l
  induction l with
  | nil => intro ks _ _ x hx; simp [List.zipWith] at hx
  | cons a l ih =>
    intro ks hl hks x hx
    cases ks with
    | nil => simp [List.zipWith] at hx
    | cons k ks =>
      simp only [List.zipWith_cons_cons] at hx
      rcases List.mem_cons.mp hx with rfl | hx
      · have h256 : (256 : Nat) = 2 ^ 8 := rfl
        rw [h256]
        exact Nat.xor_lt_two_pow (h256 ▸ hl a (by simp)) (h256 ▸ hks k (by simp))
      · exact ih ks (fun y hy => hl y (by simp [hy])) (fun y hy => hks y (by simp [hy])) x hx

theorem gcmMask_valid (key nonce buf : List Nat) (h : ValidBytes buf) :
    ValidBytes (gcmMask key nonce buf) :=
  zipWith_xor_valid buf _ h (keystream_valid key nonce buf.length)

theorem gcmSeal_valid (key nonce pt : List Nat) (hkey : ValidBytes key)
    (hnonce : ValidBytes nonce) (hpt : ValidBytes pt) :
    ValidBytes (gcmSeal key nonce pt) := by
  have hmask := gcmMask_valid key nonce pt hpt
  refine ValidBytes.append hmask ?_
  unfold gcmTag
  refine ValidBytes.append (ValidBytes.append (ValidBytes.append (ValidBytes.append ?_ hkey) ?_)
    hnonce) hmask
  · intro x hx; simp at hx; omega
  · intro x hx; simp at hx; omega

/-! ## crypto.Encrypt and crypto.Decrypt (crypto.go lines 44-114)

`Encrypt` checks the key length, draws a fresh random nonce (passed here as
an explicit argument), seals with the nonce prepended and base64-encodes the
result.  `Decrypt` checks the key length, base64-decodes, requires at least a
nonce worth of bytes (else `ErrDataCorrupted`), splits nonce from body and
opens; every `aesgcm.Open` failure is wrapped as
`errors.Wrap(errors.ErrInvalidPassword, "decryption failed (invalid key or
corrupted data)")`. -/

/-- crypto.Encrypt: AES-GCM encryption producing a base64 token
(nonce prepended, `aesgcm.Seal(nonce, nonce, plaintext, nil)`). -/
def Encrypt (plaintext key nonce : List Nat) : Except Err (List Nat) :=
  if key.length ≠ KeyLength then .error .dataCorrupted
  else .ok (b64Encode (nonce ++ gcmSeal key nonce plaintext))

/-- crypto.Decrypt: base64-decode, check the minimum length, split off the
nonce and open.  The generic decryption failure wraps `ErrInvalidPassword`. -/
def Decrypt (ciphertext key : List Nat) : Except Err (List Nat) :=
  if key.length ≠ KeyLength then .error .dataCorrupted
  else
    match b64Decode ciphertext with
    | none => .error .base64Decode
    | some bytes =>
      if bytes.length < nonceSize then .error .dataCorrupted
      else
        match gcmOpen key (bytes.take nonceSize) (bytes.drop nonceSize) with
        | none => .error .invalidPassword
        | some pt => .ok pt

/-- Decrypting a base64-encoded byte string reduces to opening its parts. -/
theorem Decrypt_b64Encode (bs key : List Nat) (hkey : key.length = 32) (hval : ValidBytes bs) :
    Decrypt (b64Encode bs) key =
      if bs.length < nonceSize then .error .dataCorrupted
      else
        match gcmOpen key (bs.take nonceSize) (bs.drop nonceSize) with
        | none => .error .invalidPassword
        | some pt => .ok pt := by
  unfold Decrypt
  rw [if_neg (by rw [hkey]; exact fun h => h rfl), b64Decode_b64Encode bs hval]

/-- Decryption of a well-formed token under the sealing key recovers the
plaintext. -/
theorem Decrypt_token (M key nonce : List Nat) (hkey : key.length = 32)
    (hkv : ValidBytes key) (hn : nonce.length = 12) (hnv : ValidBytes nonce)
    (hM : ValidBytes M) :
    Decrypt (b64Encode (nonce ++ gcmSeal key nonce M)) key = .ok M := by
  rw [Decrypt_b64Encode _ _ hkey (ValidBytes.append hnv (gcmSeal_valid key nonce M hkv hnv hM))]
  rw [if_neg (by simp [nonceSize, List.length_append, gcmSeal_length]; omega)]
  have htake : (nonce ++ gcmSeal key nonce M).take nonceSize = nonce := List.take_left' hn
  have hdrop : (nonce ++ gcmSeal key nonce M).drop nonceSize = gcmSeal key nonce M :=
    List.drop_left' hn
  rw [htake, hdrop, gcmOpen_gcmSeal]

theorem ValidBytes.set {l : List Nat} {i b : Nat} (hl : ValidBytes l) (hb : b < 256) :
    ValidBytes (l.set i b) := by
  intro x hx
  rcases List.mem_or_eq_of_mem_set hx with hx | rfl
  · exact hl x hx
  · exact hb

/-- Decrypting a token under a different 32-byte key fails with the generic
decryption-failed condition (which wraps `ErrInvalidPassword`). -/
theorem Decrypt_wrong_key (M key key' nonce : List Nat)
    (hkey : key.length = 32) (hkey' : key'.length = 32)
    (hkv : ValidBytes key) (hnv : ValidBytes nonce) (hn : nonce.length = 12)
    (hM : ValidBytes M) (hne : key ≠ key') :
    Decrypt (b64Encode (nonce ++ gcmSeal key nonce M)) key' = .error .invalidPassword := by
  rw [Decrypt_b64Encode _ _ hkey' (ValidBytes.append hnv (gcmSeal_valid key nonce M hkv hnv hM))]
  rw [if_neg (by simp [nonceSize, List.length_append, gcmSeal_length]; omega)]
  have ht : (nonce ++ gcmSeal key nonce M).take nonceSize = nonce := List.take_left' hn
  have hd : (nonce ++ gcmSeal key nonce M).drop nonceSize = gcmSeal key nonce M :=
    List.drop_left' hn
  rw [ht, hd, gcmOpen_wrong (hkey.trans hkey'.symm) rfl (Or.inl hne)]

/-- Altering any single byte of the decoded token (nonce part or sealed part)
makes decryption fail with the generic decryption-failed condition. -/
theorem Decrypt_altered (M key nonce : List Nat) (i b : Nat)
    (hkey : key.length = 32) (hkv : ValidBytes key)
    (hn : nonce.length = 12) (hnv : ValidBytes nonce) (hM : ValidBytes M)
    (hi : i < (nonce ++ gcmSeal key nonce M).length)
    (hb : b ≠ (nonce ++ gcmSeal key nonce M)[i]) (hb256 : b < 256) :
    Decrypt (b64Encode ((nonce ++ gcmSeal key nonce M).set i b)) key =
      .error .invalidPassword := by
  have hval : ValidBytes ((nonce ++ gcmSeal key nonce M).set i b) :=
    ValidBytes.set (ValidBytes.append hnv (gcmSeal_valid key nonce M hkv hnv hM)) hb256
  rw [Decrypt_b64Encode _ _ hkey hval]
  rw [if_neg (by simp [nonceSize, List.length_set, List.length_append, gcmSeal_length]; omega)]
  have ht : (nonce ++ gcmSeal key nonce M).take nonceSize = nonce := List.take_left' hn
  have hd : (nonce ++ gcmSeal key nonce M).drop nonceSize = gcmSeal key nonce M :=
    List.drop_left' hn
  by_cases hlt : i < 12
  · -- the altered byte lies in the nonce prefix
    have htake : ((nonce ++ gcmSeal key nonce M).set i b).take nonceSize = nonce.set i b := by
      rw [List.set_take, ht]
    have hdrop : ((nonce ++ gcmSeal key nonce M).set i b).drop nonceSize =
        gcmSeal key nonce M := by
      rw [List.drop_set, if_pos (by simp [nonceSize]; omega), hd]
    rw [htake, hdrop]
    have hilt : i < nonce.length := by omega
    have hbn : b ≠ nonce[i] := by
      have : (nonce ++ gcmSeal key nonce M)[i] = nonce[i] := List.getElem_append_left hilt
      rw [this] at hb; exact hb
    have hnonce_ne : nonce ≠ nonce.set i b := by
      intro hcontra
      have := congrArg (fun l => l[i]?) hcontra
      simp only [List.getElem?_set_self hilt, List.getElem?_eq_getElem hilt] at this
      exact hbn (Option.some.inj this).symm
    rw [gcmOpen_wrong rfl (by rw [List.length_set]) (Or.inr hnonce_ne)]
  · -- the altered byte lies in the sealed part
    have h12 : nonce.length ≤ i := by omega
    have htake : ((nonce ++ gcmSeal key nonce M).set i b).take nonceSize = nonce := by
      rw [List.set_take, ht, List.set_eq_of_length_le (by omega)]
    have hdrop : ((nonce ++ gcmSeal key nonce M).set i b).drop nonceSize =
        (gcmSeal key nonce M).set (i - 12) b := by
      rw [List.drop_set, if_neg (by simp [nonceSize]; omega), hd]
      rfl
    rw [htake, hdrop]
    have hi' : i - 12 < (gcmSeal key nonce M).length := by
      simp only [List.length_append, hn] at hi; omega
    have hin : i - nonce.length < (gcmSeal key nonce M).length := by rw [hn]; exact hi'
    have hbs : b ≠ (gcmSeal key nonce M)[i - 12] := by
      have heq : (nonce ++ gcmSeal key nonce M)[i] = (gcmSeal key nonce M)[i - nonce.length] :=
        List.getElem_append_right h12
      rw [heq] at hb
      have hq : (gcmSeal key nonce M)[i - nonce.length]? = (gcmSeal key nonce M)[i - 12]? := by
        rw [hn]
      rw [List.getElem?_eq_getElem hin, List.getElem?_eq_getElem hi'] at hq
      rw [← Option.some.inj hq]
      exact hb
    rw [gcmOpen_set (i - 12) b hi' hbs]

/-- A base64 input decoding to fewer bytes than the nonce size makes
decryption fail with `ErrDataCorrupted`. -/
theorem Decrypt_short (bs key : List Nat) (hkey : key.length = 32)
    (hval : ValidBytes bs) (hshort : bs.length < 12) :
    Decrypt (b64Encode bs) key = .error .dataCorrupted := by
  rw [Decrypt_b64Encode _ _ hkey hval, if_pos (by simpa [nonceSize] using hshort)]

/-- An input that is not valid base64 makes decryption fail with the base64
corrupt-input error. -/
theorem Decrypt_bad_b64 (s key : List Nat) (hkey : key.length = 32)
    (hdec : b64Decode s = none) :
    Decrypt s key = .error .base64Decode := by
  unfold Decrypt
  rw [if_neg (by rw [hkey]; exact fun h => h rfl), hdec]

/-- Tokens produced under distinct nonces are distinct. -/
theorem Encrypt_nonce_inj (M key nonce₁ nonce₂ : List Nat)
    (hkey : key.length = 32) (hkv : ValidBytes key)
    (hn₁ : nonce₁.length = 12) (hnv₁ : ValidBytes nonce₁)
    (hn₂ : nonce₂.length = 12) (hnv₂ : ValidBytes nonce₂)
    (hM : ValidBytes M) (hne : nonce₁ ≠ nonce₂) :
    Encrypt M key nonce₁ ≠ Encrypt M key nonce₂ := by
  unfold Encrypt
  have hcond : ¬(key.length ≠ KeyLength) := by rw [hkey]; exact fun h => h rfl
  simp only [if_neg hcond]
  intro h
  rw [Except.ok.injEq] at h
  have hbytes := b64Encode_inj
    (ValidBytes.append hnv₁ (gcmSeal_valid key nonce₁ M hkv hnv₁ hM))
    (ValidBytes.append hnv₂ (gcmSeal_valid key nonce₂ M hkv hnv₂ hM)) h
  exact hne (List.append_inj hbytes (hn₁.trans hn₂.symm)).1

/-! ## Data model (internal/model/model.go)

`model.Account` with its nine fields; `model.Vault` keeps the salt and the
account list (the `MasterKeyHash` field of the Go struct is never populated
in memory — `saveVault` marshals a vault holding only the accounts — so it is
omitted here).  Timestamps are `Nat` clock readings. -/

structure Account where
  id : List Nat
  platform : List Nat
  username : List Nat
  email : List Nat
  encryptedPassword : List Nat
  url : List Nat
  notes : List Nat
  createdAt : Nat
  updatedAt : Nat
deriving DecidableEq, Repr

structure Vault where
  salt : List Nat
  accounts : List Account
deriving DecidableEq, Repr

/-- All string fields of an account are byte strings. -/
def AccountValid (a : Account) : Prop :=
  ValidBytes a.id ∧ ValidBytes a.platform ∧ ValidBytes a.username ∧ ValidBytes a.email ∧
    ValidBytes a.encryptedPassword ∧ ValidBytes a.url ∧ ValidBytes a.notes

instance (a : Account) : Decidable (AccountValid a) := by
  unfold AccountValid; infer_instance

/-! ## Serialization (encoding/json, external)

Modelled from the spec: `saveVault` marshals the account collection with
`json.Marshal` and `UnlockVault` parses it back with `json.Unmarshal`; the
spec (section 6) only requires "a serialized (e.g., textual structured)
encoding of the account collection".  The model is a concrete injective byte
encoding with an executable parser: numbers are unary (so every emitted byte
is 0 or 1 and the string fields' own bytes), strings are length-prefixed.
Byte strings that do not parse model JSON documents that fail to unmarshal. -/

/-- Unary encoding of a natural number, terminated by 0. -/
def encNat (n : Nat) : List Nat := List.replicate n 1 ++ [0]

/-- Length-prefixed encoding of a byte string. -/
def encStr (s : List Nat) : List Nat := encNat s.length ++ s

/-- Serialized form of one account. -/
def encAccount (a : Account) : List Nat :=
  encStr a.id ++ encStr a.platform ++ encStr a.username ++ encStr a.email ++
    encStr a.encryptedPassword ++ encStr a.url ++ encStr a.notes ++
    encNat a.createdAt ++ encNat a.updatedAt

/-- Serialized form of a list of accounts. -/
def encAccountList : List Account → List Nat
  | [] => []
  | a :: as => encAccount a ++ encAccountList as

/-- Model of `json.Marshal(&model.Vault{Accounts: accounts})`. -/
def jsonEncodeAccounts (l : List Account) : List Nat :=
  encNat l.length ++ encAccountList l

/-- Parse a unary number, returning it and the remaining input. -/
def parseNat : List Nat → Option (Nat × List Nat)
  | 0 :: rest => some (0, rest)
  | 1 :: rest => (parseNat rest).map (fun p => (p.1 + 1, p.2))
  | _ => none

/-- Parse a length-prefixed byte string. -/
def parseStr (l : List Nat) : Option (List Nat × List Nat) :=
  match parseNat l with
  | some (n, rest) => if n ≤ rest.length then some (rest.take n, rest.drop n) else none
  | none => none

/-- Parse one account. -/
def parseAccount (l : List Nat) : Option (Account × List Nat) := do
  let (id, l) ← parseStr l
  let (platform, l) ← parseStr l
  let (username, l) ← parseStr l
  let (email, l) ← parseStr l
  let (encryptedPassword, l) ← parseStr l
  let (url, l) ← parseStr l
  let (notes, l) ← parseStr l
  let (createdAt, l) ← parseNat l
  let (updatedAt, l) ← parseNat l
  pure (⟨id, platform, username, email, encryptedPassword, url, notes, createdAt, updatedAt⟩, l)

/-- Parse a counted list of accounts. -/
def parseAccountList : Nat → List Nat → Option (List Account × List Nat)
  | 0, l => some ([], l)
  | n + 1, l => do
    let (a, l) ← parseAccount l
    let (as, l) ← parseAccountList n l
    pure (a :: as, l)

/-- Model of `json.Unmarshal` into `model.Vault` (accounts payload). -/
def jsonDecodeAccounts (l : List Nat) : Option (List Account) := do
  let (n, l) ← parseNat l
  let (as, l) ← parseAccountList n l
  if l = [] then pure as else none

theorem parseNat_encNat (n : Nat) (rest : List Nat) :
    parseNat (encNat n ++ rest) = some (n, rest) := by
  induction n with
  | zero => rfl
  | succ n ih =>
    show parseNat (1 :: (encNat n ++ rest)) = some (n + 1, rest)
    rw [parseNat, ih]
    rfl

theorem parseStr_encStr (s rest : List Nat) :
    parseStr (encStr s ++ rest) = some (s, rest) := by
  unfold parseStr encStr
  rw [List.append_assoc, parseNat_encNat]
  show (if s.length ≤ (s ++ rest).length then
      some ((s ++ rest).take s.length, (s ++ rest).drop s.length) else none) = some (s, rest)
  rw [if_pos (by simp [List.length_append]), List.take_left, List.drop_left]

theorem parseAccount_encAccount (a : Account) (rest : List Nat) :
    parseAccount (encAccount a ++ rest) = some (a, rest) := by
  unfold parseAccount encAccount
  simp only [List.append_assoc]
  rw [parseStr_encStr]
  simp only [Option.bind_eq_bind, Option.some_bind]
  rw [parseStr_encStr]
  simp only [Option.some_bind]
  rw [parseStr_encStr]
  simp only [Option.some_bind]
  rw [parseStr_encStr]
  simp only [Option.some_bind]
  rw [parseStr_encStr]
  simp only [Option.some_bind]
  rw [parseStr_encStr]
  simp only [Option.some_bind]
  rw [parseStr_encStr]
  simp only [Option.some_bind]
  rw [parseNat_encNat]
  simp only [Option.some_bind]
  rw [parseNat_encNat]
  rfl

theorem parseAccountList_encAccountList (l : List Account) (rest : List Nat) :
    parseAccountList l.length (encAccountList l ++ rest) = some (l, rest) := by
  induction l with
  | nil => rfl
  | cons a as ih =>
    show parseAccountList (as.length + 1) ((encAccount a ++ encAccountList as) ++ rest) =
      some (a :: as, rest)
    rw [List.append_assoc]
    unfold parseAccountList
    rw [parseAccount_encAccount]
    simp only [Option.bind_eq_bind, Option.some_bind]
    rw [ih]
    rfl

/-- json round-trip: unmarshalling a marshalled account list restores it. -/
theorem jsonDecode_jsonEncode (l : List Account) :
    jsonDecodeAccounts (jsonEncodeAccounts l) = some l := by
  unfold jsonDecodeAccounts jsonEncodeAccounts
  rw [parseNat_encNat]
  simp only [Option.bind_eq_bind, Option.some_bind]
  have h : encAccountList l = encAccountList l ++ [] := by simp
  rw [h, parseAccountList_encAccountList]
  rfl

theorem encNat_valid (n : Nat) : ValidBytes (encNat n) := by
  intro x hx
  unfold encNat at hx
  rcases List.mem_append.mp hx with hx | hx
  · rw [List.eq_of_mem_replicate hx]; omega
  · simp at hx; omega

theorem encStr_valid {s : List Nat} (h : ValidBytes s) : ValidBytes (encStr s) :=
  ValidBytes.append (encNat_valid _) h

theorem encAccount_valid {a : Account} (h : AccountValid a) : ValidBytes (encAccount a) := by
  obtain ⟨h1, h2, h3, h4, h5, h6, h7⟩ := h
  exact ValidBytes.append (ValidBytes.append (ValidBytes.append (ValidBytes.append
    (ValidBytes.append (ValidBytes.append (ValidBytes.append (ValidBytes.append
      (encStr_valid h1) (encStr_valid h2)) (encStr_valid h3)) (encStr_valid h4))
      (encStr_valid h5)) (encStr_valid h6)) (encStr_valid h7)) (encNat_valid _))
    (encNat_valid _)

theorem encAccountList_valid {l : List Account} (h : ∀ a ∈ l, AccountValid a) :
    ValidBytes (encAccountList l) := by
  induction l with
  | nil => intro x hx; simp [encAccountList] at hx
  | cons a as ih =>
    exact ValidBytes.append (encAccount_valid (h a (by simp)))
      (ih (fun b hb => h b (by simp [hb])))

theorem jsonEncodeAccounts_valid {l : List Account} (h : ∀ a ∈ l, AccountValid a) :
    ValidBytes (jsonEncodeAccounts l) :=
  ValidBytes.append (encNat_valid _) (encAccountList_valid h)

/-! ## Vault engine state (internal/storage/storage.go)

A `Storage` value holds the in-memory vault pointer and key; the on-disk
vault file is part of the modelled system state (`file = none` means the file
does not exist).  I/O primitives (`os.ReadFile`, `os.WriteFile` + `os.Rename`)
are modelled as succeeding; each operation returns its `error` result paired
with the post-state, so failure paths show exactly which state survives. -/

structure SysState where
  file : Option (List Nat)
  vault : Option Vault
  key : Option (List Nat)
deriving DecidableEq, Repr

/-- storage.New: fresh engine over a data directory whose vault file may or
may not exist; `s.vault = &model.Vault{}` (an empty non-nil vault), no key. -/
def newStorage (file : Option (List Nat)) : SysState :=
  { file := file, vault := some { salt := [], accounts := [] }, key := none }

/-- storage.Storage.IsVaultExists. -/
def isVaultExists (s : SysState) : Bool := s.file.isSome

/-- storage.Storage.saveVault: marshal the accounts only, encrypt with the
in-memory key (fresh `nonce`), write `masterKeyHash ‖ salt ‖ ciphertext`
atomically. -/
def saveVault (masterKeyHash nonce : List Nat) (s : SysState) : Except Err Unit × SysState :=
  match s.vault, s.key with
  | some v, some key =>
    if v.salt.length = 0 ∨ masterKeyHash.length = 0 then (.error .vaultLocked, s)
    else
      match Encrypt (jsonEncodeAccounts v.accounts) key nonce with
      | .error e => (.error e, s)
      | .ok enc => (.ok (), { s with file := some (masterKeyHash ++ v.salt ++ enc) })
  | _, _ => (.error .vaultLocked, s)

/-- storage.Storage.CreateVault: refuse when the file exists; generate salt
(`salt` argument), hash and key; install an empty vault and save. -/
def createVault (masterPassword salt nonce : List Nat) (s : SysState) :
    Except Err Unit × SysState :=
  if (isVaultExists s) = true then (.error .vaultExists, s)
  else
    let key := GenerateKey masterPassword salt
    let s1 : SysState :=
      { s with vault := some { salt := salt, accounts := [] }, key := some key }
    saveVault (HashPassword masterPassword salt) nonce s1

/-- storage.Storage.UnlockVault: read the file, slice hash/salt/ciphertext at
fixed offsets, verify the hash, derive the key, decrypt, unmarshal, and only
then install the new in-memory state. -/
def unlockVault (masterPassword : List Nat) (s : SysState) : Except Err Unit × SysState :=
  match s.file with
  | none => (.error .vaultNotExists, s)
  | some fileData =>
    if fileData.length < hashLength + SaltLength then (.error .dataCorrupted, s)
    else
      let storedHash := fileData.take hashLength
      let salt := (fileData.drop hashLength).take SaltLength
      let encryptedVaultData := fileData.drop (hashLength + SaltLength)
      if storedHash ≠ HashPassword masterPassword salt then (.error .invalidPassword, s)
      else
        let key := GenerateKey masterPassword salt
        match Decrypt encryptedVaultData key with
        | .error e => (.error e, s)
        | .ok decryptedData =>
          match jsonDecodeAccounts decryptedData with
          | none => (.error .jsonUnmarshal, s)
          | some accounts =>
            (.ok (), { s with vault := some ⟨salt, accounts⟩, key := some key })

/-- storage.Storage.getMasterKeyHashForSave: re-read the first 32 bytes of
the current on-disk file. -/
def getMasterKeyHashForSave (s : SysState) : Except Err (List Nat) :=
  match s.vault, s.key with
  | some v, some _ =>
    if v.salt.length = 0 then .error .vaultLocked
    else
      match s.file with
      | none => .error .ioRead
      | some fileData =>
        if fileData.length < hashLength then .error .dataCorrupted
        else .ok (fileData.take hashLength)
  | _, _ => .error .vaultLocked

/-- storage.Storage.AddAccount: stamp both timestamps, append, re-read the
hash, save.  The in-memory list is already extended when a later step fails. -/
def addAccount (account : Account) (now : Nat) (nonce : List Nat) (s : SysState) :
    Except Err Unit × SysState :=
  match s.vault, s.key with
  | some v, some _ =>
    let acc := { account with createdAt := now, updatedAt := now }
    let s1 : SysState := { s with vault := some { v with accounts := v.accounts ++ [acc] } }
    match getMasterKeyHashForSave s1 with
    | .error e => (.error e, s1)
    | .ok hash => saveVault hash nonce s1
  | _, _ => (.error .vaultLocked, s)

/-- storage.Storage.GetAccounts. -/
def getAccounts (s : SysState) : Except Err (List Account) :=
  match s.vault with
  | some v => .ok v.accounts
  | none => .error .vaultLocked

/-- storage.Storage.GetAccountByID: first account with a matching id. -/
def getAccountByID (id : List Nat) (s : SysState) : Except Err Account :=
  match s.vault with
  | none => .error .vaultLocked
  | some v =>
    match v.accounts.find? (fun a => a.id == id) with
    | some account => .ok account
    | none => .error .accountNotFound

/-- In-place replacement of the first account whose id matches, preserving
its creation timestamp (UpdateAccount's loop). -/
def replaceById (accounts : List Account) (account : Account) (now : Nat) :
    Option (List Account) :=
  match accounts with
  | [] => none
  | acc :: rest =>
    if acc.id == account.id then
      some ({ account with createdAt := acc.createdAt, updatedAt := now } :: rest)
    else
      (replaceById rest account now).map (acc :: ·)

/-- storage.Storage.UpdateAccount (checks only that the vault pointer is
non-nil before mutating, exactly like the source). -/
def updateAccount (account : Account) (now : Nat) (nonce : List Nat) (s : SysState) :
    Except Err Unit × SysState :=
  match s.vault with
  | none => (.error .vaultLocked, s)
  | some v =>
    match replaceById v.accounts account now with
    | none => (.error .accountNotFound, s)
    | some accounts' =>
      let s1 : SysState := { s with vault := some { v with accounts := accounts' } }
      match getMasterKeyHashForSave s1 with
      | .error e => (.error e, s1)
      | .ok hash => saveVault hash nonce s1

/-- Removal of the first account whose id matches (DeleteAccount's loop with
`slices.Delete`). -/
def deleteById (accounts : List Account) (id : List Nat) : Option (List Account) :=
  match accounts with
  | [] => none
  | acc :: rest =>
    if acc.id == id then some rest
    else (deleteById rest id).map (acc :: ·)

/-- storage.Storage.DeleteAccount. -/
def deleteAccount (id : List Nat) (nonce : List Nat) (s : SysState) :
    Except Err Unit × SysState :=
  match s.vault with
  | none => (.error .vaultLocked, s)
  | some v =>
    match deleteById v.accounts id with
    | none => (.error .accountNotFound, s)
    | some accounts' =>
      let s1 : SysState := { s with vault := some { v with accounts := accounts' } }
      match getMasterKeyHashForSave s1 with
      | .error e => (.error e, s1)
      | .ok hash => saveVault hash nonce s1

/-- storage.Storage.GetEncryptionKey (nil key reads as the empty slice). -/
def getEncryptionKey (s : SysState) : List Nat := s.key.getD []

/-- storage.Storage.ChangeMasterPassword: new salt/hash/key, keep the
accounts, save under the new material. -/
def changeMasterPassword (newPassword newSalt nonce : List Nat) (s : SysState) :
    Except Err Unit × SysState :=
  match s.vault, s.key with
  | some v, some _ =>
    let newKey := GenerateKey newPassword newSalt
    let s1 : SysState := { s with vault := some { v with salt := newSalt }, key := some newKey }
    saveVault (HashPassword newPassword newSalt) nonce s1
  | _, _ => (.error .vaultLocked, s)

/-- Model of strings.ToLower for the ASCII byte strings considered here. -/
def asciiToLower (c : Nat) : Nat := if 65 ≤ c ∧ c ≤ 90 then c + 32 else c

/-- Lower-case a byte string. -/
def toLowerBytes (s : List Nat) : List Nat := s.map asciiToLower

/-- strings.Contains: `sub` occurs contiguously in `s`. -/
def containsSub (s sub : List Nat) : Bool := decide (sub <:+: s)

/-- The SearchAccounts field test for one account against the
already-lowered query. -/
def accountMatches (loweredQuery : List Nat) (a : Account) : Bool :=
  containsSub (toLowerBytes a.platform) loweredQuery ||
    containsSub (toLowerBytes a.username) loweredQuery ||
    containsSub (toLowerBytes a.email) loweredQuery ||
    containsSub (toLowerBytes a.url) loweredQuery ||
    containsSub (toLowerBytes a.notes) loweredQuery

/-- storage.Storage.SearchAccounts: read-only; empty query returns the
collection itself, otherwise a case-insensitive substring filter over
platform/username/email/url/notes. -/
def searchAccounts (query : List Nat) (s : SysState) : Except Err (List Account) :=
  match s.vault with
  | none => .error .vaultLocked
  | some v =>
    if query = [] then .ok v.accounts
    else .ok (v.accounts.filter (accountMatches (toLowerBytes query)))

/-! ## GUI backend App (src/unnamed/part_004, package backend) -/

structure AppState where
  store : SysState
  isUnlocked : Bool
deriving DecidableEq, Repr

/-- backend.App.UnlockVault. -/
def appUnlockVault (masterPassword : List Nat) (a : AppState) : Except Err Unit × AppState :=
  match unlockVault masterPassword a.store with
  | (.error e, s') => (.error e, { a with store := s' })
  | (.ok _, s') => (.ok (), { store := s', isUnlocked := true })

/-- backend.App.CreateVault. -/
def appCreateVault (masterPassword salt nonce : List Nat) (a : AppState) :
    Except Err Unit × AppState :=
  match createVault masterPassword salt nonce a.store with
  | (.error e, s') => (.error e, { a with store := s' })
  | (.ok _, s') => (.ok (), { store := s', isUnlocked := true })

/-- ASCII code of a lowercase hex digit (encoding/hex alphabet). -/
def hexDigit (n : Nat) : Nat := if n < 10 then n + 48 else n + 87

/-- backend.App.generateID: 8 random bytes, hex-encoded to 16 characters. -/
def generateID (randomBytes : List Nat) : List Nat :=
  (randomBytes.take 8).flatMap (fun b => [hexDigit (b / 16), hexDigit (b % 16)])

/-- backend.App.AddAccount: assign a generated id when none is given, stamp
timestamps, encrypt the secret under the engine key, store. -/
def appAddAccount (account : Account) (password : List Nat) (idRandom : List Nat)
    (now : Nat) (nonce nonceVault : List Nat) (a : AppState) : Except Err Unit × AppState :=
  if a.isUnlocked = false then (.error .vaultLocked, a)
  else
    let withId := if account.id = [] then { account with id := generateID idRandom } else account
    let stamped := { withId with createdAt := now, updatedAt := now }
    match Encrypt password (getEncryptionKey a.store) nonce with
    | .error e => (.error e, a)
    | .ok enc =>
      match addAccount { stamped with encryptedPassword := enc } now nonceVault a.store with
      | (.error e, s') => (.error e, { a with store := s' })
      | (.ok _, s') => (.ok (), { a with store := s' })

/-- backend.App.DeleteAccount. -/
def appDeleteAccount (id : List Nat) (nonce : List Nat) (a : AppState) :
    Except Err Unit × AppState :=
  if a.isUnlocked = false then (.error .vaultLocked, a)
  else
    match deleteAccount id nonce a.store with
    | (.error e, s') => (.error e, { a with store := s' })
    | (.ok _, s') => (.ok (), { a with store := s' })

/-- backend.App.DecryptPassword: look the account up, decrypt its stored
secret with the engine's current key. -/
def appDecryptPassword (id : List Nat) (a : AppState) : Except Err (List Nat) :=
  if a.isUnlocked = false then .error .vaultLocked
  else
    match getAccountByID id a.store with
    | .error e => .error e
    | .ok account =>
      match Decrypt account.encryptedPassword (getEncryptionKey a.store) with
      | .error e => .error e
      | .ok decryptedPassword => .ok decryptedPassword

/-- backend.App.ChangeMasterPassword: re-unlock with the old password
(reporting any failure as `ErrInvalidPassword`), then change. -/
def appChangeMasterPassword (oldPassword newPassword newSalt nonce : List Nat)
    (a : AppState) : Except Err Unit × AppState :=
  if a.isUnlocked = false then (.error .vaultLocked, a)
  else
    match unlockVault oldPassword a.store with
    | (.error _, s') => (.error .invalidPassword, { a with store := s' })
    | (.ok _, s') =>
      match changeMasterPassword newPassword newSalt nonce s' with
      | (.error e, s₂) => (.error e, { a with store := s₂ })
      | (.ok _, s₂) => (.ok (), { a with store := s₂ })

/-- backend.App.SearchAccounts. -/
def appSearchAccounts (query : List Nat) (a : AppState) : Except Err (List Account) :=
  if a.isUnlocked = false then .error .vaultLocked
  else searchAccounts query a.store

/-! ## Well-formed unlocked states -/

/-- The engine is unlocked and consistent with its on-disk file: the file is
`hash ‖ salt ‖ Encrypt(json(accounts), key)` for the in-memory salt, accounts
and the key derived from `pw`; `fnonce` is the nonce the last save drew. -/
structure Consistent (pw : List Nat) (accs : List Account) (salt fnonce : List Nat)
    (s : SysState) : Prop where
  file_eq : s.file = some (HashPassword pw salt ++ salt ++
    b64Encode (fnonce ++ gcmSeal (GenerateKey pw salt) fnonce (jsonEncodeAccounts accs)))
  vault_eq : s.vault = some ⟨salt, accs⟩
  key_eq : s.key = some (GenerateKey pw salt)
  salt_len : salt.length = 16
  salt_valid : ValidBytes salt
  pw_valid : ValidBytes pw
  fnonce_len : fnonce.length = 12
  fnonce_valid : ValidBytes fnonce
  accs_valid : ∀ a ∈ accs, AccountValid a

/-- Weaker structural shape of an unlocked state, enough for the header
preservation facts: the file starts with a 32-byte block followed by the
in-memory salt. -/
structure DiskShape (s : SysState) (hdr : List Nat) (v : Vault) (key ct : List Nat) : Prop where
  file_eq : s.file = some (hdr ++ v.salt ++ ct)
  vault_eq : s.vault = some v
  key_eq : s.key = some key
  hdr_len : hdr.length = 32
  salt_len : v.salt.length = 16
  key_len : key.length = 32

theorem take_header {hdr salt : List Nat} (ct : List Nat) (hh : hdr.length = 32) (hs : salt.length = 16) :
    (hdr ++ salt ++ ct).take 32 = hdr ∧ (hdr ++ salt ++ ct).take 48 = hdr ++ salt := by
  constructor
  · rw [List.append_assoc]
    exact List.take_left' hh
  · have hl : (hdr ++ salt).length = 48 := by simp [List.length_append]; omega
    exact List.take_left' hl

/-- saveVault on an unlocked state with a well-sized hash and salt always
succeeds and writes `hash ‖ salt ‖ token`. -/
theorem saveVault_ok (masterKeyHash nonce : List Nat) (s : SysState) (v : Vault)
    (key : List Nat) (hv : s.vault = some v) (hk : s.key = some key)
    (hsalt : v.salt.length = 16) (hhash : 0 < masterKeyHash.length) (hkey : key.length = 32) :
    saveVault masterKeyHash nonce s = (.ok (), { s with file := some (masterKeyHash ++ v.salt ++
      b64Encode (nonce ++ gcmSeal key nonce (jsonEncodeAccounts v.accounts))) }) := by
  unfold saveVault
  rw [hv, hk]
  show (if v.salt.length = 0 ∨ masterKeyHash.length = 0 then _ else _) = _
  rw [if_neg (by omega)]
  unfold Encrypt
  rw [if_neg (by rw [hkey]; exact fun h => h rfl)]

/-- getMasterKeyHashForSave returns the first 32 bytes of the on-disk file on
an unlocked state whose file is long enough. -/
theorem getMasterKeyHashForSave_ok (s : SysState) (v : Vault) (key fileData : List Nat)
    (hv : s.vault = some v) (hk : s.key = some key) (hf : s.file = some fileData)
    (hsalt : v.salt.length = 16) (hlen : 32 ≤ fileData.length) :
    getMasterKeyHashForSave s = .ok (fileData.take 32) := by
  unfold getMasterKeyHashForSave
  rw [hv, hk]
  show (if v.salt.length = 0 then _ else _) = _
  rw [if_neg (by omega), hf]
  show (if fileData.length < hashLength then _ else _) = _
  rw [if_neg (by simp [hashLength]; omega)]
  rfl

/-- AddAccount on a shaped unlocked state: stamps, appends, preserves the
32-byte header and the salt, replaces only the ciphertext. -/
theorem addAccount_ok (account : Account) (now : Nat) (nonce : List Nat) (s : SysState)
    (hdr : List Nat) (v : Vault) (key ct : List Nat) (h : DiskShape s hdr v key ct) :
    addAccount account now nonce s = (.ok (), { s with
      vault := some { v with accounts :=
        v.accounts ++ [{ account with createdAt := now, updatedAt := now }] },
      file := some (hdr ++ v.salt ++ b64Encode (nonce ++ gcmSeal key nonce (jsonEncodeAccounts
        (v.accounts ++ [{ account with createdAt := now, updatedAt := now }])))) }) := by
  obtain ⟨hf, hv, hk, hh, hs, hkl⟩ := h
  unfold addAccount
  rw [hv, hk]
  dsimp only
  have hlen : 32 ≤ (hdr ++ v.salt ++ ct).length := by simp [List.length_append]; omega
  have htk := (take_header ct hh hs).1
  rw [getMasterKeyHashForSave_ok _ { v with accounts := v.accounts ++
      [{ account with createdAt := now, updatedAt := now }] } key (hdr ++ v.salt ++ ct)
      (by simp [hv]) (by simp [hk]) (by simp [hf]) (by simpa using hs) hlen]
  dsimp only
  have hsv := saveVault_ok ((hdr ++ v.salt ++ ct).take 32) nonce
    { file := s.file, vault := some { v with accounts :=
        v.accounts ++ [{ account with createdAt := now, updatedAt := now }] },
      key := some key }
    { v with accounts := v.accounts ++ [{ account with createdAt := now, updatedAt := now }] }
    key rfl rfl (by simpa using hs) (by rw [htk, hh]; omega) hkl
  rw [hsv, htk]

/-- UpdateAccount on a shaped unlocked state whose account list contains the
id: replaces in place and preserves the 32-byte header and the salt. -/
theorem updateAccount_ok (account : Account) (now : Nat) (nonce : List Nat) (s : SysState)
    (hdr : List Nat) (v : Vault) (key ct : List Nat) (accountsAfter : List Account)
    (h : DiskShape s hdr v key ct)
    (hrep : replaceById v.accounts account now = some accountsAfter) :
    updateAccount account now nonce s = (.ok (), { s with
      vault := some { v with accounts := accountsAfter },
      file := some (hdr ++ v.salt ++
        b64Encode (nonce ++ gcmSeal key nonce (jsonEncodeAccounts accountsAfter))) }) := by
  obtain ⟨hf, hv, hk, hh, hs, hkl⟩ := h
  unfold updateAccount
  rw [hv]
  dsimp only
  rw [hrep]
  dsimp only
  have hlen : 32 ≤ (hdr ++ v.salt ++ ct).length := by simp [List.length_append]; omega
  have htk := (take_header ct hh hs).1
  rw [getMasterKeyHashForSave_ok _ { v with accounts := accountsAfter } key
      (hdr ++ v.salt ++ ct) (by simp [hv]) (by simp [hk]) (by simp [hf])
      (by simpa using hs) hlen]
  dsimp only
  have hsv := saveVault_ok ((hdr ++ v.salt ++ ct).take 32) nonce
    { file := s.file, vault := some { v with accounts := accountsAfter }, key := s.key }
    { v with accounts := accountsAfter }
    key rfl hk (by simpa using hs) (by rw [htk, hh]; omega) hkl
  rw [hsv, htk]

/-- DeleteAccount on a shaped unlocked state whose account list contains the
id: removes it and preserves the 32-byte header and the salt. -/
theorem deleteAccount_ok (id : List Nat) (nonce : List Nat) (s : SysState)
    (hdr : List Nat) (v : Vault) (key ct : List Nat) (accountsAfter : List Account)
    (h : DiskShape s hdr v key ct)
    (hdel : deleteById v.accounts id = some accountsAfter) :
    deleteAccount id nonce s = (.ok (), { s with
      vault := some { v with accounts := accountsAfter },
      file := some (hdr ++ v.salt ++
        b64Encode (nonce ++ gcmSeal key nonce (jsonEncodeAccounts accountsAfter))) }) := by
  obtain ⟨hf, hv, hk, hh, hs, hkl⟩ := h
  unfold deleteAccount
  rw [hv]
  dsimp only
  rw [hdel]
  dsimp only
  have hlen : 32 ≤ (hdr ++ v.salt ++ ct).length := by simp [List.length_append]; omega
  have htk := (take_header ct hh hs).1
  rw [getMasterKeyHashForSave_ok _ { v with accounts := accountsAfter } key
      (hdr ++ v.salt ++ ct) (by simp [hv]) (by simp [hk]) (by simp [hf])
      (by simpa using hs) hlen]
  dsimp only
  have hsv := saveVault_ok ((hdr ++ v.salt ++ ct).take 32) nonce
    { file := s.file, vault := some { v with accounts := accountsAfter }, key := s.key }
    { v with accounts := accountsAfter }
    key rfl hk (by simpa using hs) (by rw [htk, hh]; omega) hkl
  rw [hsv, htk]

/-- ChangeMasterPassword on an unlocked state: installs the new salt and key
and rewrites the file under the new hash/salt/key with the same accounts. -/
theorem changeMasterPassword_ok (newPassword newSalt nonce : List Nat) (s : SysState)
    (v : Vault) (key : List Nat) (hv : s.vault = some v) (hk : s.key = some key)
    (hns : newSalt.length = 16) :
    changeMasterPassword newPassword newSalt nonce s = (.ok (), { s with
      vault := some { v with salt := newSalt },
      key := some (GenerateKey newPassword newSalt),
      file := some (HashPassword newPassword newSalt ++ newSalt ++
        b64Encode (nonce ++ gcmSeal (GenerateKey newPassword newSalt) nonce
          (jsonEncodeAccounts v.accounts))) }) := by
  unfold changeMasterPassword
  rw [hv, hk]
  dsimp only
  have hsv := saveVault_ok (HashPassword newPassword newSalt) nonce
    { file := s.file, vault := some { v with salt := newSalt },
      key := some (GenerateKey newPassword newSalt) }
    { v with salt := newSalt } (GenerateKey newPassword newSalt) rfl rfl
    (by simpa using hns) (by rw [HashPassword_length]; omega) (GenerateKey_length _ _)
  rw [hsv]

/-- UnlockVault on any state whose file is consistent with password `pw`
succeeds — whether or not the engine is already unlocked — and installs the
vault and key decoded from the file. -/
theorem unlockVault_consistent (pw : List Nat) (accs : List Account)
    (salt fnonce : List Nat) (s : SysState) (hfile : s.file = some (HashPassword pw salt ++
      salt ++ b64Encode (fnonce ++ gcmSeal (GenerateKey pw salt) fnonce
        (jsonEncodeAccounts accs))))
    (hsl : salt.length = 16)
    (hfl : fnonce.length = 12) (hfv : ValidBytes fnonce)
    (hav : ∀ a ∈ accs, AccountValid a) :
    unlockVault pw s =
      (.ok (), { s with vault := some ⟨salt, accs⟩, key := some (GenerateKey pw salt) }) := by
  unfold unlockVault
  rw [hfile]
  dsimp only
  have hhl := HashPassword_length pw salt
  have ht1 : (HashPassword pw salt ++ salt ++ b64Encode (fnonce ++
      gcmSeal (GenerateKey pw salt) fnonce (jsonEncodeAccounts accs))).take hashLength =
      HashPassword pw salt := (take_header _ hhl hsl).1
  have ht2 : ((HashPassword pw salt ++ salt ++ b64Encode (fnonce ++
      gcmSeal (GenerateKey pw salt) fnonce (jsonEncodeAccounts accs))).drop hashLength).take
      SaltLength = salt := by
    rw [List.append_assoc]
    have hdp : (HashPassword pw salt ++ (salt ++ b64Encode (fnonce ++
        gcmSeal (GenerateKey pw salt) fnonce (jsonEncodeAccounts accs)))).drop hashLength =
        salt ++ b64Encode (fnonce ++ gcmSeal (GenerateKey pw salt) fnonce
          (jsonEncodeAccounts accs)) := List.drop_left' hhl
    rw [hdp]
    exact List.take_left' hsl
  have ht3 : (HashPassword pw salt ++ salt ++ b64Encode (fnonce ++
      gcmSeal (GenerateKey pw salt) fnonce (jsonEncodeAccounts accs))).drop
      (hashLength + SaltLength) = b64Encode (fnonce ++
      gcmSeal (GenerateKey pw salt) fnonce (jsonEncodeAccounts accs)) :=
    List.drop_left' (by simp [hashLength, SaltLength, List.length_append, hhl, hsl])
  rw [if_neg (by simp only [hashLength, SaltLength, List.length_append, hhl, hsl]; omega)]
  rw [ht2, ht1]
  rw [if_neg (fun h => h rfl)]
  rw [ht3]
  rw [Decrypt_token (jsonEncodeAccounts accs) (GenerateKey pw salt) fnonce
    (GenerateKey_length pw salt) (GenerateKey_valid pw salt) hfl hfv
    (jsonEncodeAccounts_valid hav)]
  dsimp only
  rw [jsonDecode_jsonEncode]

/-- CreateVault on a state without a vault file: succeeds and installs the
fresh salt, key and file. -/
theorem createVault_ok (masterPassword salt nonce : List Nat) (s : SysState)
    (hf : s.file = none) (hsl : salt.length = 16) :
    createVault masterPassword salt nonce s = (.ok (), { s with
      vault := some ⟨salt, []⟩,
      key := some (GenerateKey masterPassword salt),
      file := some (HashPassword masterPassword salt ++ salt ++
        b64Encode (nonce ++ gcmSeal (GenerateKey masterPassword salt) nonce
          (jsonEncodeAccounts []))) }) := by
  unfold createVault
  rw [if_neg (by simp [isVaultExists, hf])]
  dsimp only
  have hsv := saveVault_ok (HashPassword masterPassword salt) nonce
    { s with vault := some ⟨salt, []⟩, key := some (GenerateKey masterPassword salt) }
    ⟨salt, []⟩ (GenerateKey masterPassword salt) rfl rfl hsl
    (by rw [HashPassword_length]; omega) (GenerateKey_length _ _)
  rw [hsv]

/-- Every UnlockVault failure leaves the in-memory state untouched. -/
theorem unlockVault_err_state (pw : List Nat) (s s' : SysState) (e : Err)
    (h : unlockVault pw s = (.error e, s')) : s' = s := by
  unfold unlockVault at h
  repeat' (first | split at h | dsimp only at h)
  all_goals
    first
    | (injection h with h1 h2; exact h2.symm)
    | (injection h with h1 h2; exact Except.noConfusion h1)

/-- UnlockVault on a missing file. -/
theorem unlockVault_not_exists (pw : List Nat) (s : SysState) (hf : s.file = none) :
    unlockVault pw s = (.error .vaultNotExists, s) := by
  unfold unlockVault
  rw [hf]

/-- UnlockVault on a file shorter than hash ‖ salt. -/
theorem unlockVault_short (pw fileData : List Nat) (s : SysState)
    (hf : s.file = some fileData) (hlen : fileData.length < 48) :
    unlockVault pw s = (.error .dataCorrupted, s) := by
  unfold unlockVault
  rw [hf]
  dsimp only
  rw [if_pos (by simpa [hashLength, SaltLength] using hlen)]

/-- UnlockVault when the stored hash does not match the recomputed one. -/
theorem unlockVault_bad_hash (pw fileData : List Nat) (s : SysState)
    (hf : s.file = some fileData) (hlen : 48 ≤ fileData.length)
    (hne : fileData.take 32 ≠ HashPassword pw ((fileData.drop 32).take 16)) :
    unlockVault pw s = (.error .invalidPassword, s) := by
  unfold unlockVault
  rw [hf]
  dsimp only
  rw [if_neg (by simp only [hashLength, SaltLength]; omega)]
  have hne' : List.take hashLength fileData ≠
      HashPassword pw (List.take SaltLength (List.drop hashLength fileData)) := hne
  rw [if_pos hne']

/-- UnlockVault when the hash matches but the ciphertext does not decrypt:
the failure is exactly the error Decrypt signals. -/
theorem unlockVault_decrypt_err (pw fileData : List Nat) (s : SysState) (e : Err)
    (hf : s.file = some fileData) (hlen : 48 ≤ fileData.length)
    (hhash : fileData.take 32 = HashPassword pw ((fileData.drop 32).take 16))
    (hdec : Decrypt (fileData.drop 48) (GenerateKey pw ((fileData.drop 32).take 16)) =
      .error e) :
    unlockVault pw s = (.error e, s) := by
  unfold unlockVault
  rw [hf]
  dsimp only
  rw [if_neg (by simp only [hashLength, SaltLength]; omega)]
  have hhash' : List.take hashLength fileData =
      HashPassword pw (List.take SaltLength (List.drop hashLength fileData)) := hhash
  rw [if_neg (fun h => h hhash')]
  have hdec' : Decrypt (fileData.drop (hashLength + SaltLength))
      (GenerateKey pw ((fileData.drop hashLength).take SaltLength)) = .error e := hdec
  rw [hdec']

/-- UnlockVault when hash and decryption succeed but the payload does not
deserialize: the failure is the unmarshal error, not data-corrupted. -/
theorem unlockVault_json_err (pw fileData decrypted : List Nat) (s : SysState)
    (hf : s.file = some fileData) (hlen : 48 ≤ fileData.length)
    (hhash : fileData.take 32 = HashPassword pw ((fileData.drop 32).take 16))
    (hdec : Decrypt (fileData.drop 48) (GenerateKey pw ((fileData.drop 32).take 16)) =
      .ok decrypted)
    (hjson : jsonDecodeAccounts decrypted = none) :
    unlockVault pw s = (.error .jsonUnmarshal, s) := by
  unfold unlockVault
  rw [hf]
  dsimp only
  rw [if_neg (by simp only [hashLength, SaltLength]; omega)]
  have hhash' : List.take hashLength fileData =
      HashPassword pw (List.take SaltLength (List.drop hashLength fileData)) := hhash
  rw [if_neg (fun h => h hhash')]
  have hdec' : Decrypt (fileData.drop (hashLength + SaltLength))
      (GenerateKey pw ((fileData.drop hashLength).take SaltLength)) = .ok decrypted := hdec
  rw [hdec']
  dsimp only
  rw [hjson]

/-- GetAccountByID after appending a fresh account finds exactly it. -/
theorem getAccountByID_append (id : List Nat) (s : SysState) (v : Vault) (acc : Account)
    (hv : s.vault = some v) (hacc : acc.id = id)
    (hsplit : ∃ pre post, v.accounts = pre ++ [acc] ++ post ∧ ∀ a ∈ pre, a.id ≠ id) :
    getAccountByID id s = .ok acc := by
  unfold getAccountByID
  rw [hv]
  dsimp only
  obtain ⟨pre, post, hlist, hfresh⟩ := hsplit
  rw [hlist]
  rw [List.find?_append, List.find?_append]
  have hpre : pre.find? (fun a => a.id == id) = none := by
    rw [List.find?_eq_none]
    intro a ha
    simp only [beq_eq_false_iff_ne, ne_eq, Bool.not_eq_true, beq_iff_eq]
    exact hfresh a ha
  have hone : [acc].find? (fun a => a.id == id) = some acc := by
    simp [List.find?, hacc]
  rw [hpre, hone]
  rfl

/-- Spec-side matcher: the query occurs case-insensitively as a substring of
platform, username, email, url or notes. -/
def SpecMatches (query : List Nat) (a : Account) : Prop :=
  toLowerBytes query <:+: toLowerBytes a.platform ∨
    toLowerBytes query <:+: toLowerBytes a.username ∨
    toLowerBytes query <:+: toLowerBytes a.email ∨
    toLowerBytes query <:+: toLowerBytes a.url ∨
    toLowerBytes query <:+: toLowerBytes a.notes

instance (query : List Nat) (a : Account) : Decidable (SpecMatches query a) := by
  unfold SpecMatches
  infer_instance

/-- The source's boolean field test agrees with the spec-side matcher. -/
theorem accountMatches_eq_decide (query : List Nat) (a : Account) :
    accountMatches (toLowerBytes query) a = decide (SpecMatches query a) := by
  simp only [SpecMatches, Bool.decide_or, accountMatches, containsSub, Bool.or_assoc]

theorem searchAccounts_filter (query : List Nat) (s : SysState) (v : Vault)
    (hv : s.vault = some v) (hq : query ≠ []) :
    searchAccounts query s = .ok (v.accounts.filter (fun a => decide (SpecMatches query a))) := by
  unfold searchAccounts
  rw [hv]
  dsimp only
  rw [if_neg hq]
  have hcong : v.accounts.filter (accountMatches (toLowerBytes query)) =
      v.accounts.filter (fun a => decide (SpecMatches query a)) :=
    List.filter_congr (fun a _ => accountMatches_eq_decide query a)
  rw [hcong]

/-! ## Concrete example data for witnesses and counterexamples -/

/-- A 32-byte key of zeros. -/
def exKey : List Nat := List.replicate 32 0

/-- A second, distinct 32-byte key. -/
def exKey2 : List Nat := List.replicate 31 0 ++ [1]

/-- A 12-byte nonce. -/
def exNonce : List Nat := List.replicate 12 0

/-- A second, distinct 12-byte nonce. -/
def exNonce2 : List Nat := List.replicate 12 1

/-- A third nonce. -/
def exNonce3 : List Nat := List.replicate 12 2

/-- A 16-byte salt. -/
def exSalt : List Nat := List.replicate 16 3

/-- A second 16-byte salt. -/
def exSalt2 : List Nat := List.replicate 16 4

/-- A plaintext chosen so that its sealed body literally embeds a shorter
valid token: truncating its encryption to 80 base64 characters yields a
string that still decrypts successfully. -/
def exCraftedM : List Nat := gcmMask exKey exNonce ([5] ++ gcmTag exKey exNonce [5] ++ [0])

/-! ## C1 -/

/-- C1: for every plaintext byte sequence M and every 32-byte key K (with a
fresh 12-byte nonce), Decrypt(Encrypt(M, K), K) succeeds and returns exactly
M. -/
theorem c1_encrypt_decrypt_roundtrip (M key nonce tok : List Nat)
    (hkey : key.length = 32) (hkv : ValidBytes key)
    (hn : nonce.length = 12) (hnv : ValidBytes nonce) (hM : ValidBytes M)
    (henc : Encrypt M key nonce = .ok tok) :
    Decrypt tok key = .ok M := by
  unfold Encrypt at henc
  rw [if_neg (by rw [hkey]; exact fun h => h rfl)] at henc
  have htok : tok = b64Encode (nonce ++ gcmSeal key nonce M) := (Except.ok.inj henc).symm
  rw [htok]
  exact Decrypt_token M key nonce hkey hkv hn hnv hM

/-- C1 witness: the round trip evaluated on a concrete plaintext, key and
nonce. -/
theorem c1_encrypt_decrypt_roundtrip_witness :
    Decrypt (b64Encode (exNonce ++ gcmSeal exKey exNonce [10, 20, 30])) exKey =
      .ok [10, 20, 30] :=
  c1_encrypt_decrypt_roundtrip [10, 20, 30] exKey exNonce _
    (by decide) (by decide) (by decide) (by decide) (by decide) rfl

/-! ## C6 -/

/-- C6: two calls to Encrypt(M, K) that draw distinct random nonces produce
different ciphertext tokens. -/
theorem c6_distinct_nonces_distinct_tokens (M key nonce₁ nonce₂ : List Nat)
    (hkey : key.length = 32) (hkv : ValidBytes key)
    (hn₁ : nonce₁.length = 12) (hnv₁ : ValidBytes nonce₁)
    (hn₂ : nonce₂.length = 12) (hnv₂ : ValidBytes nonce₂)
    (hM : ValidBytes M) (hne : nonce₁ ≠ nonce₂) :
    Encrypt M key nonce₁ ≠ Encrypt M key nonce₂ :=
  Encrypt_nonce_inj M key nonce₁ nonce₂ hkey hkv hn₁ hnv₁ hn₂ hnv₂ hM hne

/-- C6 witness: two concrete encryptions of the same plaintext under the same
key with different nonces differ. -/
theorem c6_distinct_nonces_distinct_tokens_witness :
    Encrypt [7] exKey exNonce ≠ Encrypt [7] exKey exNonce2 :=
  c6_distinct_nonces_distinct_tokens [7] exKey exNonce exNonce2
    (by decide) (by decide) (by decide) (by decide) (by decide) (by decide)
    (by decide) (by decide)

/-! ## C4 -/

/-- C4 counterexample: the failure condition is not one single generic
"decryption failed" condition — truncating a genuine token below the nonce
size signals `ErrDataCorrupted` ("ciphertext too short"), while a wrong key
signals the `ErrInvalidPassword`-based "decryption failed" condition; and for
a specially crafted plaintext, a truncation of the genuine token even
decrypts successfully, so not every truncation fails. -/
theorem c4_counterexample :
    Encrypt [7] exKey exNonce = .ok (b64Encode (exNonce ++ gcmSeal exKey exNonce [7])) ∧
    Decrypt ((b64Encode (exNonce ++ gcmSeal exKey exNonce [7])).take 4) exKey =
      .error .dataCorrupted ∧
    Decrypt (b64Encode (exNonce ++ gcmSeal exKey exNonce [7])) exKey2 =
      .error .invalidPassword ∧
    Err.dataCorrupted ≠ Err.invalidPassword ∧
    (Decrypt ((b64Encode (exNonce ++ gcmSeal exKey exNonce exCraftedM)).take 80) exKey).isOk =
      true :=
  ⟨rfl, rfl, rfl, by decide, rfl⟩

/-- C4 (amended): Decrypt releases no plaintext under a different 32-byte
key, under any single altered byte of the decoded token, for tokens decoding
to fewer bytes than the nonce size, or for undecodable base64; but the
signaled conditions differ: too-short tokens give data-corrupted, undecodable
tokens give a base64 error, and only authentication failures give the single
generic decryption-failed (invalid-password-based) condition. -/
theorem c4_amended :
    (∀ M key key' nonce, key.length = 32 → key'.length = 32 → ValidBytes key →
      nonce.length = 12 → ValidBytes nonce → ValidBytes M → key ≠ key' →
      Decrypt (b64Encode (nonce ++ gcmSeal key nonce M)) key' = .error .invalidPassword) ∧
    (∀ M key nonce i b, key.length = 32 → ValidBytes key → nonce.length = 12 →
      ValidBytes nonce → ValidBytes M → b < 256 →
      ∀ hi : i < (nonce ++ gcmSeal key nonce M).length,
        b ≠ (nonce ++ gcmSeal key nonce M)[i] →
        Decrypt (b64Encode ((nonce ++ gcmSeal key nonce M).set i b)) key =
          .error .invalidPassword) ∧
    (∀ bs key, key.length = 32 → ValidBytes bs → bs.length < 12 →
      Decrypt (b64Encode bs) key = .error .dataCorrupted) ∧
    (∀ s key, key.length = 32 → b64Decode s = none → Decrypt s key = .error .base64Decode) := by
  refine ⟨?_, ?_, ?_, ?_⟩
  · intro M key key' nonce hk hk' hkv hn hnv hM hne
    exact Decrypt_wrong_key M key key' nonce hk hk' hkv hnv hn hM hne
  · intro M key nonce i b hk hkv hn hnv hM hb256 hi hb
    exact Decrypt_altered M key nonce i b hk hkv hn hnv hM hi hb hb256
  · intro bs key hk hval hshort
    exact Decrypt_short bs key hk hval hshort
  · intro s key hk hdec
    exact Decrypt_bad_b64 s key hk hdec

/-- C4 (amended) witness: each failure mode evaluated at concrete inputs. -/
theorem c4_amended_witness :
    Decrypt (b64Encode (exNonce ++ gcmSeal exKey exNonce [7])) exKey2 =
      .error .invalidPassword ∧
    Decrypt (b64Encode ((exNonce ++ gcmSeal exKey exNonce [7]).set 0 9)) exKey =
      .error .invalidPassword ∧
    Decrypt (b64Encode [1, 2, 3]) exKey = .error .dataCorrupted ∧
    Decrypt [33] exKey = .error .base64Decode :=
  ⟨c4_amended.1 [7] exKey exKey2 exNonce (by decide) (by decide) (by decide) (by decide)
      (by decide) (by decide) (by decide),
    c4_amended.2.1 [7] exKey exNonce 0 9 (by decide) (by decide) (by decide) (by decide)
      (by decide) (by decide) (by decide) (by decide),
    c4_amended.2.2.1 [1, 2, 3] exKey (by decide) (by decide) (by decide),
    c4_amended.2.2.2 [33] exKey (by decide) (by decide)⟩

/-! ## C8 -/

/-- C8: SearchAccounts on an unlocked vault returns exactly the accounts
whose platform, username, email, url or notes contains the query
case-insensitively; the empty query returns the full collection unfiltered;
a query matching nothing returns an empty result, not an error. -/
theorem c8_search_accounts (s : SysState) (v : Vault) (hv : s.vault = some v) :
    searchAccounts [] s = .ok v.accounts ∧
    (∀ query, query ≠ [] → searchAccounts query s =
      .ok (v.accounts.filter (fun a => decide (SpecMatches query a)))) ∧
    (∀ query, query ≠ [] → (∀ a ∈ v.accounts, ¬ SpecMatches query a) →
      searchAccounts query s = .ok []) := by
  refine ⟨?_, ?_, ?_⟩
  · unfold searchAccounts
    rw [hv]
    dsimp only
    rw [if_pos rfl]
  · intro query hq
    exact searchAccounts_filter query s v hv hq
  · intro query hq hnone
    rw [searchAccounts_filter query s v hv hq]
    have hfil : v.accounts.filter (fun a => decide (SpecMatches query a)) = [] := by
      simp only [List.filter_eq_nil_iff, decide_eq_true_eq]
      exact hnone
    rw [hfil]

/-- C8 witness: search evaluated on a concrete two-account vault — the query
"platform0" (lower-cased match of "Platform0") selects exactly the matching
account, the empty query returns everything, and a no-match query returns an
empty list. -/
theorem c8_search_accounts_witness :
    searchAccounts []
      ⟨none, some ⟨exSalt, [⟨[1], [80, 108, 97, 116, 102, 111, 114, 109, 48], [], [], [], [],
        [], 0, 0⟩]⟩, none⟩ =
      .ok [⟨[1], [80, 108, 97, 116, 102, 111, 114, 109, 48], [], [], [], [], [], 0, 0⟩] ∧
    searchAccounts [112, 108, 97, 116, 102, 111, 114, 109, 48]
      ⟨none, some ⟨exSalt, [⟨[1], [80, 108, 97, 116, 102, 111, 114, 109, 48], [], [], [], [],
        [], 0, 0⟩]⟩, none⟩ =
      .ok [⟨[1], [80, 108, 97, 116, 102, 111, 114, 109, 48], [], [], [], [], [], 0, 0⟩] ∧
    searchAccounts [122, 122]
      ⟨none, some ⟨exSalt, [⟨[1], [80, 108, 97, 116, 102, 111, 114, 109, 48], [], [], [], [],
        [], 0, 0⟩]⟩, none⟩ = .ok [] := by
  refine ⟨(c8_search_accounts _ _ rfl).1, ?_, ?_⟩
  · rw [(c8_search_accounts _ _ rfl).2.1 [112, 108, 97, 116, 102, 111, 114, 109, 48]
      (by decide)]
    rfl
  · rw [(c8_search_accounts _ _ rfl).2.2 [122, 122] (by decide) (by decide)]

/-! ## C3 -/

set_option maxRecDepth 100000 in
/-- C3 counterexample: not every read/parse failure of UnlockVault signals
the data-corrupted condition.  With the correct password hash in place, a
non-base64 ciphertext fails with the base64 decode error, and a well-sealed
payload that does not deserialize fails with the unmarshal error — neither is
`ErrDataCorrupted`. -/
theorem c3_counterexample :
    unlockVault [97]
      ⟨some (HashPassword [97] exSalt ++ exSalt ++ [33, 33, 33]), some ⟨[], []⟩, none⟩ =
      (.error .base64Decode,
        ⟨some (HashPassword [97] exSalt ++ exSalt ++ [33, 33, 33]), some ⟨[], []⟩, none⟩) ∧
    unlockVault [97]
      ⟨some (HashPassword [97] exSalt ++ exSalt ++ b64Encode (exNonce ++
        gcmSeal (GenerateKey [97] exSalt) exNonce [2])), some ⟨[], []⟩, none⟩ =
      (.error .jsonUnmarshal,
        ⟨some (HashPassword [97] exSalt ++ exSalt ++ b64Encode (exNonce ++
          gcmSeal (GenerateKey [97] exSalt) exNonce [2])), some ⟨[], []⟩, none⟩) ∧
    Err.base64Decode ≠ Err.dataCorrupted ∧
    Err.jsonUnmarshal ≠ Err.dataCorrupted :=
  ⟨rfl, rfl, by decide, by decide⟩

/-- C3 (amended): whenever UnlockVault fails, the in-memory vault and key are
left exactly as they were (the engine never partially adopts new state); the
failure conditions are: vault-not-exists without a file, data-corrupted for a
file shorter than hash ‖ salt, invalid-password when the verification hash
mismatches; an undecryptable ciphertext fails with the error Decrypt signals
(the generic decryption-failed or base64 condition) and a bad deserialization
fails with the unmarshal error — not with the data-corrupted condition. -/
theorem c3_amended :
    (∀ pw s s' e, unlockVault pw s = (.error e, s') → s' = s) ∧
    (∀ pw s, s.file = none → unlockVault pw s = (.error .vaultNotExists, s)) ∧
    (∀ pw fileData s, s.file = some fileData → fileData.length < 48 →
      unlockVault pw s = (.error .dataCorrupted, s)) ∧
    (∀ pw fileData s, s.file = some fileData → 48 ≤ fileData.length →
      fileData.take 32 ≠ HashPassword pw ((fileData.drop 32).take 16) →
      unlockVault pw s = (.error .invalidPassword, s)) ∧
    (∀ pw fileData s e, s.file = some fileData → 48 ≤ fileData.length →
      fileData.take 32 = HashPassword pw ((fileData.drop 32).take 16) →
      Decrypt (fileData.drop 48) (GenerateKey pw ((fileData.drop 32).take 16)) = .error e →
      unlockVault pw s = (.error e, s)) ∧
    (∀ pw fileData decrypted s, s.file = some fileData → 48 ≤ fileData.length →
      fileData.take 32 = HashPassword pw ((fileData.drop 32).take 16) →
      Decrypt (fileData.drop 48) (GenerateKey pw ((fileData.drop 32).take 16)) =
        .ok decrypted →
      jsonDecodeAccounts decrypted = none →
      unlockVault pw s = (.error .jsonUnmarshal, s)) := by
  refine ⟨?_, ?_, ?_, ?_, ?_, ?_⟩
  · intro pw s s' e h
    exact unlockVault_err_state pw s s' e h
  · intro pw s hf
    exact unlockVault_not_exists pw s hf
  · intro pw fileData s hf hlen
    exact unlockVault_short pw fileData s hf hlen
  · intro pw fileData s hf hlen hne
    exact unlockVault_bad_hash pw fileData s hf hlen hne
  · intro pw fileData s e hf hlen hhash hdec
    exact unlockVault_decrypt_err pw fileData s e hf hlen hhash hdec
  · intro pw fileData decrypted s hf hlen hhash hdec hjson
    exact unlockVault_json_err pw fileData decrypted s hf hlen hhash hdec hjson

/-- C3 (amended) witness: the failure classification applied at concrete
states: a missing file, a truncated file, a wrong password and a non-base64
ciphertext, each leaving the state untouched. -/
theorem c3_amended_witness :
    unlockVault [97] ⟨none, some ⟨[], []⟩, none⟩ =
      (.error .vaultNotExists, ⟨none, some ⟨[], []⟩, none⟩) ∧
    unlockVault [97] ⟨some [1, 2, 3], some ⟨[], []⟩, none⟩ =
      (.error .dataCorrupted, ⟨some [1, 2, 3], some ⟨[], []⟩, none⟩) ∧
    unlockVault [98]
      ⟨some (HashPassword [97] exSalt ++ exSalt ++ [33, 33, 33]), some ⟨[], []⟩, none⟩ =
      (.error .invalidPassword,
        ⟨some (HashPassword [97] exSalt ++ exSalt ++ [33, 33, 33]), some ⟨[], []⟩, none⟩) ∧
    unlockVault [97]
      ⟨some (HashPassword [97] exSalt ++ exSalt ++ [33, 33, 33]), some ⟨[], []⟩, none⟩ =
      (.error .base64Decode,
        ⟨some (HashPassword [97] exSalt ++ exSalt ++ [33, 33, 33]), some ⟨[], []⟩, none⟩) :=
  ⟨c3_amended.2.1 [97] _ rfl,
    c3_amended.2.2.1 [97] [1, 2, 3] _ rfl (by decide),
    c3_amended.2.2.2.1 [98] _ _ rfl (by decide) (by decide),
    c3_amended.2.2.2.2.1 [97] _ _ .base64Decode rfl (by decide) (by decide) rfl⟩

/-! ## C7 -/

/-- C7: every successful AddAccount, UpdateAccount or DeleteAccount on an
unlocked vault leaves the first 32 bytes (verification hash) and the
following 16 bytes (salt) of the on-disk file byte-for-byte unchanged; only
the ciphertext portion is rewritten. -/
theorem c7_mutations_preserve_header (s : SysState) (hdr : List Nat) (v : Vault)
    (key ct : List Nat) (h : DiskShape s hdr v key ct) (account : Account) (now : Nat)
    (nonce id : List Nat) :
    ((addAccount account now nonce s).1 = .ok () ∧
      ((addAccount account now nonce s).2.file.getD []).take 48 =
        ((s.file.getD []).take 48)) ∧
    (∀ accountsAfter, replaceById v.accounts account now = some accountsAfter →
      (updateAccount account now nonce s).1 = .ok () ∧
      ((updateAccount account now nonce s).2.file.getD []).take 48 =
        ((s.file.getD []).take 48)) ∧
    (∀ accountsAfter, deleteById v.accounts id = some accountsAfter →
      (deleteAccount id nonce s).1 = .ok () ∧
      ((deleteAccount id nonce s).2.file.getD []).take 48 =
        ((s.file.getD []).take 48)) := by
  have hh := h.hdr_len
  have hs := h.salt_len
  have hfile := h.file_eq
  have hold : (s.file.getD []).take 48 = hdr ++ v.salt := by
    rw [hfile]
    exact (take_header ct hh hs).2
  refine ⟨?_, ?_, ?_⟩
  · rw [addAccount_ok account now nonce s hdr v key ct h]
    refine ⟨rfl, ?_⟩
    dsimp only
    rw [hold]
    exact (take_header _ hh hs).2
  · intro accountsAfter hrep
    rw [updateAccount_ok account now nonce s hdr v key ct accountsAfter h hrep]
    refine ⟨rfl, ?_⟩
    dsimp only
    rw [hold]
    exact (take_header _ hh hs).2
  · intro accountsAfter hdel
    rw [deleteAccount_ok id nonce s hdr v key ct accountsAfter h hdel]
    refine ⟨rfl, ?_⟩
    dsimp only
    rw [hold]
    exact (take_header _ hh hs).2

/-- C7 witness: header preservation evaluated on a concrete unlocked state
holding one account, for an add, an update and a delete. -/
theorem c7_mutations_preserve_header_witness :
    ((addAccount ⟨[2], [], [], [], [], [], [], 0, 0⟩ 5 exNonce
        ⟨some (List.replicate 32 9 ++ exSalt ++ [7]), some ⟨exSalt,
          [⟨[1], [], [], [], [], [], [], 0, 0⟩]⟩, some exKey⟩).2.file.getD []).take 48 =
      ((List.replicate 32 9 ++ exSalt ++ [7]).take 48) ∧
    ((updateAccount ⟨[1], [], [], [], [], [], [], 0, 0⟩ 5 exNonce
        ⟨some (List.replicate 32 9 ++ exSalt ++ [7]), some ⟨exSalt,
          [⟨[1], [], [], [], [], [], [], 0, 0⟩]⟩, some exKey⟩).2.file.getD []).take 48 =
      ((List.replicate 32 9 ++ exSalt ++ [7]).take 48) ∧
    ((deleteAccount [1] exNonce
        ⟨some (List.replicate 32 9 ++ exSalt ++ [7]), some ⟨exSalt,
          [⟨[1], [], [], [], [], [], [], 0, 0⟩]⟩, some exKey⟩).2.file.getD []).take 48 =
      ((List.replicate 32 9 ++ exSalt ++ [7]).take 48) := by
  have hds : DiskShape
      ⟨some (List.replicate 32 9 ++ exSalt ++ [7]), some ⟨exSalt,
        [⟨[1], [], [], [], [], [], [], 0, 0⟩]⟩, some exKey⟩
      (List.replicate 32 9) ⟨exSalt, [⟨[1], [], [], [], [], [], [], 0, 0⟩]⟩ exKey [7] :=
    ⟨rfl, rfl, rfl, by decide, by decide, by decide⟩
  refine ⟨?_, ?_, ?_⟩
  · exact (c7_mutations_preserve_header _ _ _ _ _ hds
      ⟨[2], [], [], [], [], [], [], 0, 0⟩ 5 exNonce [1]).1.2
  · exact ((c7_mutations_preserve_header _ _ _ _ _ hds
      ⟨[1], [], [], [], [], [], [], 0, 0⟩ 5 exNonce [1]).2.1 _ rfl).2
  · exact ((c7_mutations_preserve_header _ _ _ _ _ hds
      ⟨[1], [], [], [], [], [], [], 0, 0⟩ 5 exNonce [1]).2.2 _ rfl).2

/-! ## C9 -/

theorem flatMap_pair_length (l : List Nat) :
    (l.flatMap (fun b => [hexDigit (b / 16), hexDigit (b % 16)])).length = 2 * l.length := by
  induction l with
  | nil => rfl
  | cons a l ih => simp [List.flatMap_cons, ih]; omega

set_option maxRecDepth 100000 in
/-- C9 counterexample: account ids are not unique in reachable vault states.
Starting from a fresh vault, adding two accounts that carry the same explicit
id succeeds both times and leaves two accounts with id `[1]` in the
collection — the engine never checks for duplicates. -/
theorem c9_counterexample :
    (addAccount ⟨[1], [], [], [], [], [], [], 0, 0⟩ 2 exNonce3
        (addAccount ⟨[1], [], [], [], [], [], [], 0, 0⟩ 1 exNonce2
          ((createVault [97] exSalt exNonce (newStorage none)).2)).2).1 = .ok () ∧
    (((addAccount ⟨[1], [], [], [], [], [], [], 0, 0⟩ 2 exNonce3
        (addAccount ⟨[1], [], [], [], [], [], [], 0, 0⟩ 1 exNonce2
          ((createVault [97] exSalt exNonce (newStorage none)).2)).2).2.vault.getD
      ⟨[], []⟩).accounts.countP (fun a => a.id == [1])) = 2 :=
  ⟨rfl, rfl⟩

/-- C9 (amended): the engine itself never enforces id uniqueness — AddAccount
appends the given account unconditionally (even when its id is already
present), so uniqueness relies on callers: App.AddAccount generates a fresh
random id (16 lowercase hex characters from 8 random bytes) only when the
given id is empty, without any collision check against the collection. -/
theorem c9_amended :
    (∀ s v key account now nonce, s.vault = some v → s.key = some key →
      (addAccount account now nonce s).2.vault = some { v with accounts :=
        v.accounts ++ [{ account with createdAt := now, updatedAt := now }] }) ∧
    (∀ randomBytes, 8 ≤ randomBytes.length → (generateID randomBytes).length = 16) ∧
    (∀ randomBytes c, ValidBytes randomBytes → c ∈ generateID randomBytes →
      (48 ≤ c ∧ c ≤ 57) ∨ (97 ≤ c ∧ c ≤ 102)) := by
  refine ⟨?_, ?_, ?_⟩
  · intro s v key account now nonce hv hk
    unfold addAccount saveVault
    rw [hv, hk]
    repeat' (first | dsimp only | split)
  · intro randomBytes hlen
    unfold generateID
    rw [flatMap_pair_length, List.length_take]
    omega
  · intro randomBytes c hval hc
    unfold generateID at hc
    rw [List.mem_flatMap] at hc
    obtain ⟨b, hb, hcm⟩ := hc
    have hb256 : b < 256 := hval b (List.mem_of_mem_take hb)
    have hrange : ∀ x, x < 16 → (48 ≤ hexDigit x ∧ hexDigit x ≤ 57) ∨
        (97 ≤ hexDigit x ∧ hexDigit x ≤ 102) := by decide
    rcases List.mem_cons.mp hcm with rfl | hcm
    · exact hrange _ (by omega)
    · rcases List.mem_cons.mp hcm with rfl | hcm
      · exact hrange _ (by omega)
      · simp at hcm

/-- C9 (amended) witness: the append behaviour and the generated-id facts at
concrete inputs. -/
theorem c9_amended_witness :
    (addAccount ⟨[1], [], [], [], [], [], [], 0, 0⟩ 4 exNonce
        ⟨some [9], some ⟨exSalt, [⟨[1], [], [], [], [], [], [], 0, 0⟩]⟩, some exKey⟩).2.vault =
      some ⟨exSalt, [⟨[1], [], [], [], [], [], [], 0, 0⟩,
        ⟨[1], [], [], [], [], [], [], 4, 4⟩]⟩ ∧
    (generateID (List.replicate 8 255)).length = 16 ∧
    ((48 ≤ 102 ∧ (102 : Nat) ≤ 57) ∨ (97 ≤ 102 ∧ (102 : Nat) ≤ 102)) :=
  ⟨c9_amended.1 _ ⟨exSalt, [⟨[1], [], [], [], [], [], [], 0, 0⟩]⟩ exKey
      ⟨[1], [], [], [], [], [], [], 0, 0⟩ 4 exNonce rfl rfl,
    c9_amended.2.1 (List.replicate 8 255) (by decide),
    c9_amended.2.2 (List.replicate 8 255) 102 (by decide) (by decide)⟩

/-! ## C10 -/

/-- C10: calling UnlockVault while already Unlocked is not rejected — on a
state whose file is consistent with the password it succeeds and wholesale
replaces the in-memory vault and key from the on-disk file, regardless of
what vault/key were held before; App.ChangeMasterPassword relies on this by
re-unlocking with the old password (collapsing any such failure to
invalid-password) before committing the change. -/
theorem c10_reunlock_and_change (pw : List Nat) (accs : List Account)
    (salt fnonce : List Nat) (s : SysState)
    (hfile : s.file = some (HashPassword pw salt ++ salt ++
      b64Encode (fnonce ++ gcmSeal (GenerateKey pw salt) fnonce (jsonEncodeAccounts accs))))
    (hsl : salt.length = 16) (hfl : fnonce.length = 12) (hfv : ValidBytes fnonce)
    (hav : ∀ a ∈ accs, AccountValid a) :
    (unlockVault pw s =
      (.ok (), { s with vault := some ⟨salt, accs⟩, key := some (GenerateKey pw salt) })) ∧
    (∀ newPassword newSalt nonce, newSalt.length = 16 →
      appChangeMasterPassword pw newPassword newSalt nonce ⟨s, true⟩ =
        (.ok (), ⟨{ s with
          vault := some ⟨newSalt, accs⟩,
          key := some (GenerateKey newPassword newSalt),
          file := some (HashPassword newPassword newSalt ++ newSalt ++
            b64Encode (nonce ++ gcmSeal (GenerateKey newPassword newSalt) nonce
              (jsonEncodeAccounts accs))) }, true⟩)) ∧
    (∀ a : AppState, ∀ oldPw newPw newSalt nonce e s', a.isUnlocked = true →
      unlockVault oldPw a.store = (.error e, s') →
      appChangeMasterPassword oldPw newPw newSalt nonce a =
        (.error .invalidPassword, { a with store := s' })) := by
  have hunlock := unlockVault_consistent pw accs salt fnonce s hfile hsl hfl hfv hav
  refine ⟨hunlock, ?_, ?_⟩
  · intro newPassword newSalt nonce hns
    unfold appChangeMasterPassword
    rw [if_neg (by simp)]
    rw [hunlock]
    dsimp only
    rw [changeMasterPassword_ok newPassword newSalt nonce _ ⟨salt, accs⟩
      (GenerateKey pw salt) rfl rfl hns]
  · intro a oldPw newPw newSalt nonce e s' hu hfail
    unfold appChangeMasterPassword
    rw [if_neg (by rw [hu]; exact fun h => Bool.noConfusion h)]
    rw [hfail]

/-- C10 witness: re-unlocking an already-unlocked concrete vault succeeds and
replaces the state; the App change flow succeeds with the old password and
collapses a wrong-password unlock failure to invalid-password. -/
theorem c10_reunlock_and_change_witness :
    (unlockVault [97]
      ⟨some (HashPassword [97] exSalt ++ exSalt ++ b64Encode (exNonce ++
        gcmSeal (GenerateKey [97] exSalt) exNonce (jsonEncodeAccounts []))),
        some ⟨exSalt, []⟩, some (GenerateKey [97] exSalt)⟩ =
      (.ok (), ⟨some (HashPassword [97] exSalt ++ exSalt ++ b64Encode (exNonce ++
        gcmSeal (GenerateKey [97] exSalt) exNonce (jsonEncodeAccounts []))),
        some ⟨exSalt, []⟩, some (GenerateKey [97] exSalt)⟩)) ∧
    appChangeMasterPassword [97] [98] exSalt2 exNonce2
      ⟨⟨some (HashPassword [97] exSalt ++ exSalt ++ b64Encode (exNonce ++
        gcmSeal (GenerateKey [97] exSalt) exNonce (jsonEncodeAccounts []))),
        some ⟨exSalt, []⟩, some (GenerateKey [97] exSalt)⟩, true⟩ =
      (.ok (), ⟨⟨some (HashPassword [98] exSalt2 ++ exSalt2 ++ b64Encode (exNonce2 ++
        gcmSeal (GenerateKey [98] exSalt2) exNonce2 (jsonEncodeAccounts []))),
        some ⟨exSalt2, []⟩, some (GenerateKey [98] exSalt2)⟩, true⟩) := by
  have h := c10_reunlock_and_change [97] [] exSalt exNonce
    ⟨some (HashPassword [97] exSalt ++ exSalt ++ b64Encode (exNonce ++
      gcmSeal (GenerateKey [97] exSalt) exNonce (jsonEncodeAccounts []))),
      some ⟨exSalt, []⟩, some (GenerateKey [97] exSalt)⟩
    rfl (by decide) (by decide) (by decide) (by intro a ha; simp at ha)
  exact ⟨h.1, h.2.1 [98] exSalt2 exNonce2 (by decide)⟩

/-! ## C5 -/

/-- C5: on an unlocked vault, after App.AddAccount stores a new account with
plaintext secret `secret` (under a fresh id not already present),
App.DecryptPassword on that account's id returns exactly `secret`. -/
theorem c5_add_then_decrypt (pw : List Nat) (accs : List Account) (salt fnonce : List Nat)
    (s : SysState) (hc : Consistent pw accs salt fnonce s)
    (account : Account) (secret idRandom : List Nat) (now : Nat) (nonce nonceVault : List Nat)
    (hsec : ValidBytes secret) (hn : nonce.length = 12) (hnv : ValidBytes nonce)
    (hfresh : ∀ b ∈ accs, b.id ≠
      (if account.id = [] then generateID idRandom else account.id)) :
    (appAddAccount account secret idRandom now nonce nonceVault ⟨s, true⟩).1 = .ok () ∧
    appDecryptPassword (if account.id = [] then generateID idRandom else account.id)
      (appAddAccount account secret idRandom now nonce nonceVault ⟨s, true⟩).2 = .ok secret := by
  have hkeylen := GenerateKey_length pw salt
  have hkeyval := GenerateKey_valid pw salt
  have hgek : getEncryptionKey s = GenerateKey pw salt := by
    unfold getEncryptionKey
    rw [hc.key_eq]
    rfl
  have hds : DiskShape s (HashPassword pw salt) ⟨salt, accs⟩ (GenerateKey pw salt)
      (b64Encode (fnonce ++ gcmSeal (GenerateKey pw salt) fnonce
        (jsonEncodeAccounts accs))) :=
    ⟨hc.file_eq, hc.vault_eq, hc.key_eq, HashPassword_length pw salt, hc.salt_len, hkeylen⟩
  have happ : appAddAccount account secret idRandom now nonce nonceVault ⟨s, true⟩ =
      (.ok (), ⟨(addAccount { (if account.id = [] then
          { account with id := generateID idRandom } else account) with
        createdAt := now, updatedAt := now,
        encryptedPassword := b64Encode (nonce ++
          gcmSeal (GenerateKey pw salt) nonce secret) } now nonceVault s).2, true⟩) := by
    unfold appAddAccount
    rw [if_neg (fun h => Bool.noConfusion h)]
    dsimp only
    rw [hgek]
    unfold Encrypt
    rw [if_neg (by rw [hkeylen]; exact fun h => h rfl)]
    dsimp only
    rw [addAccount_ok _ now nonceVault s (HashPassword pw salt) ⟨salt, accs⟩
      (GenerateKey pw salt) _ hds]
  rw [happ]
  rw [addAccount_ok _ now nonceVault s (HashPassword pw salt) ⟨salt, accs⟩
    (GenerateKey pw salt) _ hds]
  refine ⟨rfl, ?_⟩
  unfold appDecryptPassword
  rw [if_neg (fun h => Bool.noConfusion h)]
  dsimp only
  rw [getAccountByID_append _ _ ⟨salt, accs ++ [{ (if account.id = [] then
      { account with id := generateID idRandom } else account) with
    createdAt := now, updatedAt := now,
    encryptedPassword := b64Encode (nonce ++
      gcmSeal (GenerateKey pw salt) nonce secret) }]⟩
    { (if account.id = [] then { account with id := generateID idRandom } else account) with
      createdAt := now, updatedAt := now,
      encryptedPassword := b64Encode (nonce ++
        gcmSeal (GenerateKey pw salt) nonce secret) }
    rfl
    (by by_cases hid : account.id = [] <;> simp [hid])
    ⟨accs, [], by simp, hfresh⟩]
  dsimp only
  unfold getEncryptionKey
  dsimp only [Option.getD]
  rw [hc.key_eq]
  dsimp only
  rw [Decrypt_token secret (GenerateKey pw salt) nonce hkeylen hkeyval hn hnv hsec]

/-- C5 witness: adding a concrete account with secret `[9]` to a concrete
unlocked empty vault and decrypting it back. -/
theorem c5_add_then_decrypt_witness :
    (appAddAccount ⟨[], [], [], [], [], [], [], 0, 0⟩ [9] (List.replicate 8 0) 3 exNonce2
      exNonce3 ⟨⟨some (HashPassword [97] exSalt ++ exSalt ++ b64Encode (exNonce ++
        gcmSeal (GenerateKey [97] exSalt) exNonce (jsonEncodeAccounts []))),
        some ⟨exSalt, []⟩, some (GenerateKey [97] exSalt)⟩, true⟩).1 = .ok () ∧
    appDecryptPassword (if (⟨[], [], [], [], [], [], [], 0, 0⟩ : Account).id = [] then
        generateID (List.replicate 8 0) else (⟨[], [], [], [], [], [], [], 0, 0⟩ : Account).id)
      (appAddAccount ⟨[], [], [], [], [], [], [], 0, 0⟩ [9] (List.replicate 8 0) 3 exNonce2
        exNonce3 ⟨⟨some (HashPassword [97] exSalt ++ exSalt ++ b64Encode (exNonce ++
          gcmSeal (GenerateKey [97] exSalt) exNonce (jsonEncodeAccounts []))),
          some ⟨exSalt, []⟩, some (GenerateKey [97] exSalt)⟩, true⟩).2 = .ok [9] :=
  c5_add_then_decrypt [97] [] exSalt exNonce _
    ⟨rfl, rfl, rfl, by decide, by decide, by decide, by decide, by decide,
      by intro a ha; simp at ha⟩
    ⟨[], [], [], [], [], [], [], 0, 0⟩ [9] (List.replicate 8 0) 3 exNonce2 exNonce3
    (by decide) (by decide) (by decide) (by intro b hb; simp at hb)

/-! ## C2 -/

/-- App state after creating a fresh vault with master password `[111]`. -/
def c2afterCreate : AppState :=
  (appCreateVault [111] exSalt exNonce ⟨newStorage none, false⟩).2

/-- App state after additionally storing one account with secret `[9]`. -/
def c2afterAdd : AppState :=
  (appAddAccount ⟨[], [], [], [], [], [], [], 0, 0⟩ [9] (List.replicate 8 0) 3 exNonce2
    exNonce3 c2afterCreate).2

/-- The generated id of that account. -/
def c2id : List Nat := generateID (List.replicate 8 0)

/-- Result of changing the master password from `[111]` to `[110]`. -/
def c2change : Except Err Unit × AppState :=
  appChangeMasterPassword [111] [110] exSalt2 exNonce c2afterAdd

set_option maxRecDepth 4000000 in
/-- C2 evaluated at the failing input: before the change the stored secret
decrypts to `[9]`; ChangeMasterPassword succeeds, afterwards unlocking with
the old password fails and with the new password succeeds (these parts of the
claim hold) — but DecryptPassword on the same account now fails with the
decryption-failed condition, because the per-account `EncryptedPassword`
tokens are still sealed under the old key and are never re-encrypted. -/
theorem c2_change_password_loses_secrets :
    appDecryptPassword c2id c2afterAdd = .ok [9] ∧
    c2change.1 = .ok () ∧
    (appUnlockVault [111] c2change.2).1 = .error .invalidPassword ∧
    (appUnlockVault [110] c2change.2).1 = .ok () ∧
    appDecryptPassword c2id c2change.2 = .error .invalidPassword :=
  ⟨rfl, rfl, rfl, rfl, rfl⟩
